import Mathlib

/-!
Verification of the dental-records data-quality pipeline
(pockets/recessions patient classification, missing-log parsing,
cross-validation and aggregation).

Text cells are modelled as `List Char` (the tables hold ASCII text);
absent (NaN) cells are `Option.none`.  The regex character classes
`\s` and `\d` are modelled by their ASCII members.
-/

namespace Dental

/-- The `\s` character class (ASCII members) used by the source regexes. -/
def isWS (c : Char) : Bool :=
  c = ' ' || c = '\t' || c = '\n' || c = '\r' || c = '\x0b' || c = '\x0c'

/-- The `\d` character class (ASCII digits). -/
def isDigitChar (c : Char) : Bool :=
  48 ≤ c.toNat && c.toNat ≤ 57

theorem isWS_not_digit {c : Char} (h : isWS c = true) : isDigitChar c = false := by
  simp only [isWS, Bool.or_eq_true, decide_eq_true_eq] at h
  rcases h with ((((h | h) | h) | h) | h) | h <;> subst h <;> decide

theorem isDigit_not_ws {c : Char} (h : isDigitChar c = true) : isWS c = false := by
  by_contra hne
  have hws : isWS c = true := by
    cases hw : isWS c
    · exact absurd hw hne
    · rfl
  have := isWS_not_digit hws
  rw [this] at h
  exact Bool.false_ne_true h

/-- `\d{1,2}` at the head of the input: greedily take the maximal digit run,
succeed iff it has one or two digits, returning the rest. -/
def matchNum (cs : List Char) : Option (List Char) :=
  if (cs.takeWhile isDigitChar).length = 1 ∨ (cs.takeWhile isDigitChar).length = 2 then
    some (cs.dropWhile isDigitChar)
  else none

/-- A whitespace separator at the head of the input: greedily take the maximal
whitespace run, succeed iff its length satisfies `sepOk`.  The pockets regex
uses `\s\x7b1,2\x7d` and the recessions regex uses `\s+`. -/
def matchSep (sepOk : Nat → Bool) (cs : List Char) : Option (List Char) :=
  if sepOk (cs.takeWhile isWS).length then some (cs.dropWhile isWS) else none

/-- The core of both snapshot regexes: three 1-2-digit integers separated by
whitespace runs accepted by `sepOk`; returns the unconsumed remainder. -/
def parseCore (sepOk : Nat → Bool) (cs : List Char) : Option (List Char) :=
  ((((matchNum cs).bind (matchSep sepOk)).bind matchNum).bind (matchSep sepOk)).bind matchNum

/-- Separator rule of the pockets regex: exactly one or two whitespace chars. -/
def pocketsSepOk (n : Nat) : Bool := n = 1 || n = 2

/-- Separator rule of the recessions regex: one or more whitespace chars. -/
def recessionsSepOk (n : Nat) : Bool := decide (1 ≤ n)

/-- `pattern.match(s)` for the pockets pipeline's regex
`^\s*\d\x7b1,2\x7d(?:\s\x7b1,2\x7d\d\x7b1,2\x7d)\x7b2\x7d\s*$`
(pockets_snapshot.py line 17; also the cross-validator's standard pattern). -/
def pocketsMatches (cs : List Char) : Bool :=
  match parseCore pocketsSepOk (cs.dropWhile isWS) with
  | some r => r.all isWS
  | none => false

/-- `pattern.match(s)` for the recessions pipeline's regex
`^\s*(\d\x7b1,2\x7d)\s+(\d\x7b1,2\x7d)\s+(\d\x7b1,2\x7d)\s*$`
(recessions_snapshots.py line 15). -/
def recessionsMatches (cs : List Char) : Bool :=
  match parseCore recessionsSepOk (cs.dropWhile isWS) with
  | some r => r.all isWS
  | none => false

/-- Strip trailing `\s` characters (Python-style right strip). -/
def pyStripRight (cs : List Char) : List Char := (cs.reverse.dropWhile isWS).reverse

/-- Strip leading and trailing `\s` characters (Python `str.strip()`). -/
def pyStrip (cs : List Char) : List Char := pyStripRight (cs.dropWhile isWS)

/-- Modelled from the spec's words (§4.1): the trimmed text matches
`^\d\x7b1,2\x7d(\s\x7b1,2\x7d\d\x7b1,2\x7d)\x7b2\x7d$` -- three 1-2-digit
integers separated by one or two whitespace characters, nothing else. -/
def specWellFormed (cs : List Char) : Bool :=
  match parseCore pocketsSepOk (pyStrip cs) with
  | some r => r.isEmpty
  | none => false

/-- The recessions-side analogue of `specWellFormed`: the trimmed text is three
1-2-digit integers separated by runs of one or more whitespace characters. -/
def specWellFormedAnyWS (cs : List Char) : Bool :=
  match parseCore recessionsSepOk (pyStrip cs) with
  | some r => r.isEmpty
  | none => false

section PatternLemmas

variable {p : Char → Bool}

theorem takeWhile_append_of (u v : List Char) (hu : u.all p = true)
    (hv : ∀ c, v.head? = some c → p c = false) :
    (u ++ v).takeWhile p = u ∧ (u ++ v).dropWhile p = v := by
  induction u with
  | nil =>
    simp only [List.nil_append]
    cases v with
    | nil => simp [List.takeWhile, List.dropWhile]
    | cons c cs =>
      have hc := hv c rfl
      simp [List.takeWhile, List.dropWhile, hc]
  | cons a u ih =>
    simp only [List.all_cons, Bool.and_eq_true] at hu
    have ⟨hih1, hih2⟩ := ih hu.2
    simp [List.takeWhile, List.dropWhile, hu.1, hih1, hih2]

theorem head_dropWhile_false (cs : List Char) :
    ∀ c, (cs.dropWhile p).head? = some c → p c = false := by
  induction cs with
  | nil => intro c h; simp [List.dropWhile] at h
  | cons a cs ih =>
    intro c h
    by_cases hp : p a = true
    · rw [List.dropWhile_cons_of_pos hp] at h
      exact ih c h
    · rw [List.dropWhile_cons_of_neg hp] at h
      simp only [List.head?_cons, Option.some.injEq] at h
      subst h
      exact Bool.not_eq_true _ ▸ (Bool.of_not_eq_true hp)

theorem all_takeWhile_self (cs : List Char) : (cs.takeWhile p).all p = true := by
  induction cs with
  | nil => simp [List.takeWhile]
  | cons a cs ih =>
    by_cases hp : p a = true
    · rw [List.takeWhile_cons_of_pos hp]
      simp [hp, ih]
    · rw [List.takeWhile_cons_of_neg hp]
      simp

/-- Characterization of a successful `matchNum`. -/
theorem matchNum_eq_some_iff (cs r : List Char) :
    matchNum cs = some r ↔
      ∃ d, cs = d ++ r ∧ d.all isDigitChar = true ∧ (d.length = 1 ∨ d.length = 2) ∧
        (∀ c, r.head? = some c → isDigitChar c = false) := by
  constructor
  · intro h
    unfold matchNum at h
    split at h
    · rename_i hlen
      refine ⟨cs.takeWhile isDigitChar, ?_, all_takeWhile_self cs, hlen, ?_⟩
      · rw [Option.some.injEq] at h
        rw [← h, List.takeWhile_append_dropWhile]
      · rw [Option.some.injEq] at h
        rw [← h]
        exact head_dropWhile_false cs
    · exact absurd h (by simp)
  · rintro ⟨d, rfl, hall, hlen, hr⟩
    have := takeWhile_append_of (p := isDigitChar) d r hall hr
    unfold matchNum
    rw [this.1, this.2]
    simp [hlen]

/-- Characterization of a successful `matchSep`. -/
theorem matchSep_eq_some_iff (sepOk : Nat → Bool) (cs r : List Char) :
    matchSep sepOk cs = some r ↔
      ∃ w, cs = w ++ r ∧ w.all isWS = true ∧ sepOk w.length = true ∧
        (∀ c, r.head? = some c → isWS c = false) := by
  constructor
  · intro h
    unfold matchSep at h
    split at h
    · rename_i hlen
      refine ⟨cs.takeWhile isWS, ?_, all_takeWhile_self cs, hlen, ?_⟩
      · rw [Option.some.injEq] at h
        rw [← h, List.takeWhile_append_dropWhile]
      · rw [Option.some.injEq] at h
        rw [← h]
        exact head_dropWhile_false cs
    · exact absurd h (by simp)
  · rintro ⟨w, rfl, hall, hlen, hr⟩
    have := takeWhile_append_of (p := isWS) w r hall hr
    unfold matchSep
    rw [this.1, this.2]
    simp [hlen]

/-- The decomposition described by the core of the snapshot regexes. -/
def CoreDecomp (sepOk : Nat → Bool) (cs r : List Char) : Prop :=
  ∃ d1 w1 d2 w2 d3,
    cs = d1 ++ (w1 ++ (d2 ++ (w2 ++ (d3 ++ r)))) ∧
    d1.all isDigitChar = true ∧ (d1.length = 1 ∨ d1.length = 2) ∧
    w1.all isWS = true ∧ sepOk w1.length = true ∧
    d2.all isDigitChar = true ∧ (d2.length = 1 ∨ d2.length = 2) ∧
    w2.all isWS = true ∧ sepOk w2.length = true ∧
    d3.all isDigitChar = true ∧ (d3.length = 1 ∨ d3.length = 2) ∧
    (∀ c, r.head? = some c → isDigitChar c = false)

theorem head_of_all {q : Char → Bool} (l : List Char) (hall : l.all q = true) :
    ∀ c, l.head? = some c → q c = true := by
  intro c h
  cases l with
  | nil => simp at h
  | cons a l =>
    simp only [List.head?_cons, Option.some.injEq] at h
    subst h
    simp only [List.all_cons, Bool.and_eq_true] at hall
    exact hall.1

theorem length_pos_of_sepOk {sepOk : Nat → Bool} (hsep : sepOk 0 = false)
    {w : List Char} (h : sepOk w.length = true) : w ≠ [] := by
  intro hnil
  subst hnil
  simp only [List.length_nil] at h
  rw [hsep] at h
  exact Bool.false_ne_true h

theorem parseCore_eq_some_iff (sepOk : Nat → Bool) (hsep : sepOk 0 = false)
    (cs r : List Char) :
    parseCore sepOk cs = some r ↔ CoreDecomp sepOk cs r := by
  constructor
  · intro h
    unfold parseCore at h
    rcases ho1 : matchNum cs with _ | t1
    · rw [ho1] at h; simp at h
    rw [ho1] at h
    simp only [Option.some_bind] at h
    rcases ho2 : matchSep sepOk t1 with _ | t2
    · rw [ho2] at h; simp at h
    rw [ho2] at h
    simp only [Option.some_bind] at h
    rcases ho3 : matchNum t2 with _ | t3
    · rw [ho3] at h; simp at h
    rw [ho3] at h
    simp only [Option.some_bind] at h
    rcases ho4 : matchSep sepOk t3 with _ | t4
    · rw [ho4] at h; simp at h
    rw [ho4] at h
    simp only [Option.some_bind] at h
    obtain ⟨d1, rfl, hd1a, hd1l, -⟩ := (matchNum_eq_some_iff _ _).mp ho1
    obtain ⟨w1, rfl, hw1a, hw1l, -⟩ := (matchSep_eq_some_iff _ _ _).mp ho2
    obtain ⟨d2, rfl, hd2a, hd2l, -⟩ := (matchNum_eq_some_iff _ _).mp ho3
    obtain ⟨w2, rfl, hw2a, hw2l, -⟩ := (matchSep_eq_some_iff _ _ _).mp ho4
    obtain ⟨d3, rfl, hd3a, hd3l, hr⟩ := (matchNum_eq_some_iff _ _).mp h
    exact ⟨d1, w1, d2, w2, d3, rfl, hd1a, hd1l, hw1a, hw1l, hd2a, hd2l, hw2a, hw2l,
      hd3a, hd3l, hr⟩
  · rintro ⟨d1, w1, d2, w2, d3, rfl, hd1a, hd1l, hw1a, hw1l, hd2a, hd2l, hw2a, hw2l,
      hd3a, hd3l, hr⟩
    have hw1ne : w1 ≠ [] := length_pos_of_sepOk hsep hw1l
    have hw2ne : w2 ≠ [] := length_pos_of_sepOk hsep hw2l
    have hd2ne : d2 ≠ [] := by
      intro hx; subst hx; simp at hd2l
    have hd3ne : d3 ≠ [] := by
      intro hx; subst hx; simp at hd3l
    have h1 : matchNum (d1 ++ (w1 ++ (d2 ++ (w2 ++ (d3 ++ r))))) =
        some (w1 ++ (d2 ++ (w2 ++ (d3 ++ r)))) := by
      apply (matchNum_eq_some_iff _ _).mpr
      refine ⟨d1, rfl, hd1a, hd1l, ?_⟩
      intro c hc
      rcases w1 with _ | ⟨a, w1'⟩
      · exact absurd rfl hw1ne
      · simp only [List.cons_append, List.head?_cons, Option.some.injEq] at hc
        subst hc
        exact isWS_not_digit (head_of_all (a :: w1') hw1a a rfl)
    have h2 : matchSep sepOk (w1 ++ (d2 ++ (w2 ++ (d3 ++ r)))) =
        some (d2 ++ (w2 ++ (d3 ++ r))) := by
      apply (matchSep_eq_some_iff _ _ _).mpr
      refine ⟨w1, rfl, hw1a, hw1l, ?_⟩
      intro c hc
      rcases d2 with _ | ⟨a, d2'⟩
      · exact absurd rfl hd2ne
      · simp only [List.cons_append, List.head?_cons, Option.some.injEq] at hc
        subst hc
        exact isDigit_not_ws (head_of_all (a :: d2') hd2a a rfl)
    have h3 : matchNum (d2 ++ (w2 ++ (d3 ++ r))) = some (w2 ++ (d3 ++ r)) := by
      apply (matchNum_eq_some_iff _ _).mpr
      refine ⟨d2, rfl, hd2a, hd2l, ?_⟩
      intro c hc
      rcases w2 with _ | ⟨a, w2'⟩
      · exact absurd rfl hw2ne
      · simp only [List.cons_append, List.head?_cons, Option.some.injEq] at hc
        subst hc
        exact isWS_not_digit (head_of_all (a :: w2') hw2a a rfl)
    have h4 : matchSep sepOk (w2 ++ (d3 ++ r)) = some (d3 ++ r) := by
      apply (matchSep_eq_some_iff _ _ _).mpr
      refine ⟨w2, rfl, hw2a, hw2l, ?_⟩
      intro c hc
      rcases d3 with _ | ⟨a, d3'⟩
      · exact absurd rfl hd3ne
      · simp only [List.cons_append, List.head?_cons, Option.some.injEq] at hc
        subst hc
        exact isDigit_not_ws (head_of_all (a :: d3') hd3a a rfl)
    have h5 : matchNum (d3 ++ r) = some r := by
      apply (matchNum_eq_some_iff _ _).mpr
      exact ⟨d3, rfl, hd3a, hd3l, hr⟩
    unfold parseCore
    rw [h1, Option.some_bind, h2, Option.some_bind, h3, Option.some_bind, h4,
      Option.some_bind, h5]

theorem pyStripRight_append (u r : List Char) (hr : r.all isWS = true)
    (hu : ∀ c, u.getLast? = some c → isWS c = false) :
    pyStripRight (u ++ r) = u := by
  unfold pyStripRight
  rw [List.reverse_append]
  have h := takeWhile_append_of (p := isWS) r.reverse u.reverse
    (by rw [List.all_reverse]; exact hr)
    (by intro c hc; rw [List.head?_reverse] at hc; exact hu c hc)
  rw [h.2, List.reverse_reverse]

theorem pyStripRight_decomp (t : List Char) :
    ∃ w, t = pyStripRight t ++ w ∧ w.all isWS = true := by
  refine ⟨(t.reverse.takeWhile isWS).reverse, ?_, ?_⟩
  · unfold pyStripRight
    calc t = t.reverse.reverse := (List.reverse_reverse t).symm
    _ = (t.reverse.takeWhile isWS ++ t.reverse.dropWhile isWS).reverse := by
        rw [List.takeWhile_append_dropWhile]
    _ = (t.reverse.dropWhile isWS).reverse ++ (t.reverse.takeWhile isWS).reverse := by
        rw [List.reverse_append]
  · rw [List.all_reverse]
    exact all_takeWhile_self _

theorem getLast_append_of_ne_nil (u d : List Char) (hd : d ≠ []) :
    (u ++ d).getLast? = d.getLast? := by
  induction u with
  | nil => rfl
  | cons a u ih =>
    rw [List.cons_append, List.getLast?_cons, ih]
    cases d with
    | nil => exact absurd rfl hd
    | cons b d => simp [List.getLast?_cons]

theorem getLast_mem_of_all {q : Char → Bool} (l : List Char) (hall : l.all q = true) :
    ∀ c, l.getLast? = some c → q c = true := by
  induction l with
  | nil => intro c h; simp at h
  | cons a l ih =>
    intro c h
    simp only [List.all_cons, Bool.and_eq_true] at hall
    cases l with
    | nil =>
      simp only [List.getLast?_singleton, Option.some.injEq] at h
      subst h
      exact hall.1
    | cons b l' =>
      rw [List.getLast?_cons_cons] at h
      exact ih hall.2 c h

/-- Full-matching `\s* CORE \s*` on `t` with leading whitespace already removed
is the same as full-matching `CORE` on the right-stripped text. -/
theorem core_full_iff_strip (sepOk : Nat → Bool) (hsep : sepOk 0 = false)
    (t : List Char) :
    (match parseCore sepOk t with
     | some r => r.all isWS
     | none => false) =
    (match parseCore sepOk (pyStripRight t) with
     | some r => r.isEmpty
     | none => false) := by
  have hmp : (∃ r, parseCore sepOk t = some r ∧ r.all isWS = true) ↔
      parseCore sepOk (pyStripRight t) = some [] := by
    constructor
    · rintro ⟨r, hp, hall⟩
      obtain ⟨d1, w1, d2, w2, d3, heq, hd1a, hd1l, hw1a, hw1l, hd2a, hd2l, hw2a, hw2l,
        hd3a, hd3l, -⟩ := (parseCore_eq_some_iff sepOk hsep _ _).mp hp
      have hd3ne : d3 ≠ [] := by intro hx; subst hx; simp at hd3l
      have heq' : t = (d1 ++ (w1 ++ (d2 ++ (w2 ++ d3)))) ++ r := by
        rw [heq]; simp [List.append_assoc]
      have hstrip : pyStripRight t = d1 ++ (w1 ++ (d2 ++ (w2 ++ d3))) := by
        rw [heq']
        apply pyStripRight_append _ _ hall
        intro c hc
        have hassoc : d1 ++ (w1 ++ (d2 ++ (w2 ++ d3))) = (d1 ++ w1 ++ d2 ++ w2) ++ d3 := by
          simp [List.append_assoc]
        rw [hassoc, getLast_append_of_ne_nil _ d3 hd3ne] at hc
        exact isDigit_not_ws (getLast_mem_of_all d3 hd3a c hc)
      rw [hstrip]
      apply (parseCore_eq_some_iff sepOk hsep _ _).mpr
      refine ⟨d1, w1, d2, w2, d3, by simp, hd1a, hd1l, hw1a, hw1l, hd2a, hd2l,
        hw2a, hw2l, hd3a, hd3l, ?_⟩
      intro c hc
      simp at hc
    · intro hp
      obtain ⟨w, ht, hwall⟩ := pyStripRight_decomp t
      obtain ⟨d1, w1, d2, w2, d3, heq, hd1a, hd1l, hw1a, hw1l, hd2a, hd2l, hw2a, hw2l,
        hd3a, hd3l, -⟩ := (parseCore_eq_some_iff sepOk hsep _ _).mp hp
      refine ⟨w, ?_, hwall⟩
      apply (parseCore_eq_some_iff sepOk hsep _ _).mpr
      refine ⟨d1, w1, d2, w2, d3, ?_, hd1a, hd1l, hw1a, hw1l, hd2a, hd2l,
        hw2a, hw2l, hd3a, hd3l, ?_⟩
      · rw [ht, heq]; simp [List.append_assoc]
      · intro c hc
        exact isWS_not_digit (head_of_all w hwall c hc)
  by_cases hex : ∃ r, parseCore sepOk t = some r ∧ r.all isWS = true
  · obtain ⟨r, hp, hall⟩ := hex
    have h2 := hmp.mp ⟨r, hp, hall⟩
    rw [hp, h2]
    simp [hall]
  · have h2 : parseCore sepOk (pyStripRight t) ≠ some [] := fun hc => hex (hmp.mpr hc)
    rcases h1 : parseCore sepOk t with _ | r
    · rcases h3 : parseCore sepOk (pyStripRight t) with _ | r2
      · rfl
      · cases r2 with
        | nil => exact absurd h3 h2
        | cons a l => rfl
    · have hall : r.all isWS = false := by
        cases hb : r.all isWS
        · rfl
        · exact absurd ⟨r, h1, hb⟩ hex
      rcases h3 : parseCore sepOk (pyStripRight t) with _ | r2
      · show r.all isWS = false
        exact hall
      · cases r2 with
        | nil => exact absurd h3 h2
        | cons a l =>
          show r.all isWS = (a :: l).isEmpty
          rw [hall]
          rfl

theorem pocketsMatches_eq_spec (cs : List Char) :
    pocketsMatches cs = specWellFormed cs := by
  unfold pocketsMatches specWellFormed pyStrip
  exact core_full_iff_strip pocketsSepOk (by decide) (cs.dropWhile isWS)

theorem recessionsMatches_eq_specAnyWS (cs : List Char) :
    recessionsMatches cs = specWellFormedAnyWS cs := by
  unfold recessionsMatches specWellFormedAnyWS pyStrip
  exact core_full_iff_strip recessionsSepOk (by decide) (cs.dropWhile isWS)

end PatternLemmas

/-! ### Patient classifier (pockets_snapshot.py / recessions_snapshots.py)

One `Visit` is one table row: a ResearchID, the raw CHART DATE text, and the
tooth-site cells of the checked column range (`Tooth 18 B` .. `Tooth 28 P`),
indexed by position; `none` models a NaN cell (empty / whitespace-only cells
were already standardized to NaN by the `replace` step). -/

structure Visit where
  rid : Nat
  date : List Char
  cells : List (Option (List Char))
deriving DecidableEq

/-- Cell of visit `v` in column `c` of the checked range. -/
def cellAt (v : Visit) (c : Nat) : Option (List Char) := v.cells.getD c none

/-- `row_matches_pattern`: every checked cell matches the pipeline's pattern.
`pattern.match(str(row[col]))` on a NaN cell tests the text `nan`, which never
matches, hence `none ↦ false`. -/
def rowMatchesPattern (matchFn : List Char → Bool) (cols : List Nat) (v : Visit) : Bool :=
  cols.all (fun c =>
    match cellAt v c with
    | some s => matchFn s
    | none => false)

/-- pockets `row_does_not_match_pattern`: some cell is non-NaN and fails the
pattern. -/
def rowDoesNotMatchPockets (cols : List Nat) (v : Visit) : Bool :=
  cols.any (fun c =>
    match cellAt v c with
    | some s => !pocketsMatches s
    | none => false)

/-- recessions `row_does_not_match_pattern`: NaN and empty-string cells are
treated as matching. -/
def rowDoesNotMatchRecessions (cols : List Nat) (v : Visit) : Bool :=
  cols.any (fun c =>
    match cellAt v c with
    | some s => if s = [] then false else !recessionsMatches s
    | none => false)

/-- The ResearchIDs occurring in a list of rows (`data['ResearchID']`). -/
def idsOf (l : List Visit) : List Nat := l.map (fun v => v.rid)

/-- `data[~data['ResearchID'].isin(ids)]`. -/
def removeIds (pool : List Visit) (ids : List Nat) : List Visit :=
  pool.filter (fun v => decide (v.rid ∉ ids))

/-- `data[data['ResearchID'] == r]`. -/
def groupOf (pool : List Visit) (r : Nat) : List Visit :=
  pool.filter (fun v => decide (v.rid = r))

/-- `is_fully_consistent_missing_teeth` against the current pool. -/
def isFullyConsistent (pool : List Visit) (cols : List Nat) (v : Visit) : Bool :=
  if (groupOf pool v.rid).length ≤ 1 then false
  else cols.all (fun c =>
    (groupOf pool v.rid).all (fun w => (cellAt w c).isNone) ||
    (groupOf pool v.rid).all (fun w => (cellAt w c).isSome))

/-- `is_inconsistent_missing_teeth` against the current pool. -/
def isInconsistent (pool : List Visit) (cols : List Nat) (v : Visit) : Bool :=
  if (groupOf pool v.rid).length ≤ 1 then false
  else cols.any (fun c =>
    !(groupOf pool v.rid).all (fun w => (cellAt w c).isNone) &&
    !(groupOf pool v.rid).all (fun w => (cellAt w c).isSome))

/-- Datatype 1 rows (`no_missing_data`). -/
def noMissingRows (rm : Visit → Bool) (tbl : List Visit) : List Visit := tbl.filter rm

/-- Pool after removing all rows of datatype-1 ResearchIDs. -/
def pool1 (rm : Visit → Bool) (tbl : List Visit) : List Visit :=
  removeIds tbl (idsOf (noMissingRows rm tbl))

/-- Datatype 2 rows (`systematic_missing_data`). -/
def systematicRows (rm rb : Visit → Bool) (tbl : List Visit) : List Visit :=
  (pool1 rm tbl).filter rb

def pool2 (rm rb : Visit → Bool) (tbl : List Visit) : List Visit :=
  removeIds (pool1 rm tbl) (idsOf (systematicRows rm rb tbl))

/-- Datatype 3 rows (`consistent_missing_data`). -/
def consistentRows (rm rb : Visit → Bool) (cols : List Nat) (tbl : List Visit) : List Visit :=
  (pool2 rm rb tbl).filter (isFullyConsistent (pool2 rm rb tbl) cols)

def pool3 (rm rb : Visit → Bool) (cols : List Nat) (tbl : List Visit) : List Visit :=
  removeIds (pool2 rm rb tbl) (idsOf (consistentRows rm rb cols tbl))

/-- Datatype 4 rows (`inconsistent_missing_data`). -/
def inconsistentRows (rm rb : Visit → Bool) (cols : List Nat) (tbl : List Visit) : List Visit :=
  (pool3 rm rb cols tbl).filter (isInconsistent (pool3 rm rb cols tbl) cols)

def pool4 (rm rb : Visit → Bool) (cols : List Nat) (tbl : List Visit) : List Visit :=
  removeIds (pool3 rm rb cols tbl) (idsOf (inconsistentRows rm rb cols tbl))

/-- Datatype 5 rows (`single_observation_data`: groupby-filter `len(x) == 1`). -/
def singleRows (rm rb : Visit → Bool) (cols : List Nat) (tbl : List Visit) : List Visit :=
  (pool4 rm rb cols tbl).filter
    (fun v => decide ((groupOf (pool4 rm rb cols tbl) v.rid).length = 1))

def pool5 (rm rb : Visit → Bool) (cols : List Nat) (tbl : List Visit) : List Visit :=
  removeIds (pool4 rm rb cols tbl) (idsOf (singleRows rm rb cols tbl))

/-- Datatype 6 rows (`remaining_data`). -/
def remainingRows (rm rb : Visit → Bool) (cols : List Nat) (tbl : List Visit) : List Visit :=
  pool5 rm rb cols tbl

/-- The six `Data_Type` buckets of the snapshot pipelines. -/
inductive Cat where
  | noMissing
  | systematic
  | consistent
  | inconsistent
  | single
  | other
deriving DecidableEq

/-- The categories whose ResearchID set contains `pid` (membership in each
bucket's `unique()` id collection). -/
def assignedCats (rm rb : Visit → Bool) (cols : List Nat) (tbl : List Visit)
    (pid : Nat) : List Cat :=
  (if pid ∈ idsOf (noMissingRows rm tbl) then [Cat.noMissing] else []) ++
  (if pid ∈ idsOf (systematicRows rm rb tbl) then [Cat.systematic] else []) ++
  (if pid ∈ idsOf (consistentRows rm rb cols tbl) then [Cat.consistent] else []) ++
  (if pid ∈ idsOf (inconsistentRows rm rb cols tbl) then [Cat.inconsistent] else []) ++
  (if pid ∈ idsOf (singleRows rm rb cols tbl) then [Cat.single] else []) ++
  (if pid ∈ idsOf (remainingRows rm rb cols tbl) then [Cat.other] else [])

/-- The pockets pipeline's classification. -/
def assignedPockets (cols : List Nat) (tbl : List Visit) (pid : Nat) : List Cat :=
  assignedCats (rowMatchesPattern pocketsMatches cols) (rowDoesNotMatchPockets cols)
    cols tbl pid

/-- The recessions pipeline's classification. -/
def assignedRecessions (cols : List Nat) (tbl : List Visit) (pid : Nat) : List Cat :=
  assignedCats (rowMatchesPattern recessionsMatches cols) (rowDoesNotMatchRecessions cols)
    cols tbl pid

section ClassifierLemmas

variable {rm rb : Visit → Bool} {cols : List Nat} {tbl : List Visit} {pid : Nat}
variable {v : Visit}

theorem mem_removeIds {pool : List Visit} {ids : List Nat} :
    v ∈ removeIds pool ids ↔ v ∈ pool ∧ v.rid ∉ ids := by
  simp [removeIds, List.mem_filter]

theorem mem_idsOf {l : List Visit} :
    pid ∈ idsOf l ↔ ∃ v ∈ l, v.rid = pid := by
  simp [idsOf, List.mem_map]

theorem ids_removeIds {pool : List Visit} {ids : List Nat}
    (h : pid ∈ idsOf (removeIds pool ids)) : pid ∈ idsOf pool ∧ pid ∉ ids := by
  obtain ⟨v, hv, rfl⟩ := mem_idsOf.mp h
  have h2 := mem_removeIds.mp hv
  exact ⟨mem_idsOf.mpr ⟨v, h2.1, rfl⟩, h2.2⟩

theorem ids_filter_sub {pool : List Visit} {q : Visit → Bool}
    (h : pid ∈ idsOf (pool.filter q)) : pid ∈ idsOf pool := by
  obtain ⟨v, hv, rfl⟩ := mem_idsOf.mp h
  exact mem_idsOf.mpr ⟨v, (List.mem_filter.mp hv).1, rfl⟩

theorem ids_pool1_cases (h : pid ∈ idsOf (pool1 rm tbl)) :
    pid ∈ idsOf tbl ∧ pid ∉ idsOf (noMissingRows rm tbl) := by
  unfold pool1 at h
  exact ids_removeIds h

theorem ids_pool2_cases (h : pid ∈ idsOf (pool2 rm rb tbl)) :
    pid ∈ idsOf (pool1 rm tbl) ∧ pid ∉ idsOf (systematicRows rm rb tbl) := by
  unfold pool2 at h
  exact ids_removeIds h

theorem ids_pool3_cases (h : pid ∈ idsOf (pool3 rm rb cols tbl)) :
    pid ∈ idsOf (pool2 rm rb tbl) ∧ pid ∉ idsOf (consistentRows rm rb cols tbl) := by
  unfold pool3 at h
  exact ids_removeIds h

theorem ids_pool4_cases (h : pid ∈ idsOf (pool4 rm rb cols tbl)) :
    pid ∈ idsOf (pool3 rm rb cols tbl) ∧ pid ∉ idsOf (inconsistentRows rm rb cols tbl) := by
  unfold pool4 at h
  exact ids_removeIds h

theorem ids_pool5_cases (h : pid ∈ idsOf (pool5 rm rb cols tbl)) :
    pid ∈ idsOf (pool4 rm rb cols tbl) ∧ pid ∉ idsOf (singleRows rm rb cols tbl) := by
  unfold pool5 at h
  exact ids_removeIds h

theorem ids_bucket2_sub (h : pid ∈ idsOf (systematicRows rm rb tbl)) :
    pid ∈ idsOf (pool1 rm tbl) := by
  unfold systematicRows at h
  exact ids_filter_sub h

theorem ids_bucket3_sub (h : pid ∈ idsOf (consistentRows rm rb cols tbl)) :
    pid ∈ idsOf (pool2 rm rb tbl) := by
  unfold consistentRows at h
  exact ids_filter_sub h

theorem ids_bucket4_sub (h : pid ∈ idsOf (inconsistentRows rm rb cols tbl)) :
    pid ∈ idsOf (pool3 rm rb cols tbl) := by
  unfold inconsistentRows at h
  exact ids_filter_sub h

theorem ids_bucket5_sub (h : pid ∈ idsOf (singleRows rm rb cols tbl)) :
    pid ∈ idsOf (pool4 rm rb cols tbl) := by
  unfold singleRows at h
  exact ids_filter_sub h

/-- Ids surviving to pool 2 were claimed by no earlier bucket. -/
theorem ids_pool2_not (h : pid ∈ idsOf (pool2 rm rb tbl)) :
    pid ∉ idsOf (noMissingRows rm tbl) ∧ pid ∉ idsOf (systematicRows rm rb tbl) :=
  ⟨(ids_pool1_cases (ids_pool2_cases h).1).2, (ids_pool2_cases h).2⟩

theorem ids_pool3_not (h : pid ∈ idsOf (pool3 rm rb cols tbl)) :
    pid ∉ idsOf (noMissingRows rm tbl) ∧ pid ∉ idsOf (systematicRows rm rb tbl) ∧
    pid ∉ idsOf (consistentRows rm rb cols tbl) :=
  ⟨(ids_pool2_not (ids_pool3_cases h).1).1, (ids_pool2_not (ids_pool3_cases h).1).2,
    (ids_pool3_cases h).2⟩

theorem ids_pool4_not (h : pid ∈ idsOf (pool4 rm rb cols tbl)) :
    pid ∉ idsOf (noMissingRows rm tbl) ∧ pid ∉ idsOf (systematicRows rm rb tbl) ∧
    pid ∉ idsOf (consistentRows rm rb cols tbl) ∧
    pid ∉ idsOf (inconsistentRows rm rb cols tbl) :=
  ⟨(ids_pool3_not (ids_pool4_cases h).1).1, (ids_pool3_not (ids_pool4_cases h).1).2.1,
    (ids_pool3_not (ids_pool4_cases h).1).2.2, (ids_pool4_cases h).2⟩

theorem ids_pool5_not (h : pid ∈ idsOf (pool5 rm rb cols tbl)) :
    pid ∉ idsOf (noMissingRows rm tbl) ∧ pid ∉ idsOf (systematicRows rm rb tbl) ∧
    pid ∉ idsOf (consistentRows rm rb cols tbl) ∧
    pid ∉ idsOf (inconsistentRows rm rb cols tbl) ∧
    pid ∉ idsOf (singleRows rm rb cols tbl) :=
  ⟨(ids_pool4_not (ids_pool5_cases h).1).1, (ids_pool4_not (ids_pool5_cases h).1).2.1,
    (ids_pool4_not (ids_pool5_cases h).1).2.2.1, (ids_pool4_not (ids_pool5_cases h).1).2.2.2,
    (ids_pool5_cases h).2⟩

/-- The shrinking-pool partition assigns every row's ResearchID exactly one of
the six categories. -/
theorem assignedCats_exactly_one (rm rb : Visit → Bool) (cols : List Nat)
    (tbl : List Visit) (v : Visit) (hv : v ∈ tbl) :
    (assignedCats rm rb cols tbl v.rid).length = 1 := by
  by_cases h1 : v.rid ∈ idsOf (noMissingRows rm tbl)
  · have n2 : v.rid ∉ idsOf (systematicRows rm rb tbl) :=
      fun hx => (ids_pool1_cases (ids_bucket2_sub hx)).2 h1
    have n3 : v.rid ∉ idsOf (consistentRows rm rb cols tbl) :=
      fun hx => (ids_pool2_not (ids_bucket3_sub hx)).1 h1
    have n4 : v.rid ∉ idsOf (inconsistentRows rm rb cols tbl) :=
      fun hx => (ids_pool3_not (ids_bucket4_sub hx)).1 h1
    have n5 : v.rid ∉ idsOf (singleRows rm rb cols tbl) :=
      fun hx => (ids_pool4_not (ids_bucket5_sub hx)).1 h1
    have n6 : v.rid ∉ idsOf (remainingRows rm rb cols tbl) :=
      fun hx => (ids_pool5_not hx).1 h1
    simp only [assignedCats]
    rw [if_pos h1, if_neg n2, if_neg n3, if_neg n4, if_neg n5, if_neg n6]
    rfl
  · have hv1 : v ∈ pool1 rm tbl := mem_removeIds.mpr ⟨hv, h1⟩
    by_cases h2 : v.rid ∈ idsOf (systematicRows rm rb tbl)
    · have n3 : v.rid ∉ idsOf (consistentRows rm rb cols tbl) :=
        fun hx => (ids_pool2_not (ids_bucket3_sub hx)).2 h2
      have n4 : v.rid ∉ idsOf (inconsistentRows rm rb cols tbl) :=
        fun hx => (ids_pool3_not (ids_bucket4_sub hx)).2.1 h2
      have n5 : v.rid ∉ idsOf (singleRows rm rb cols tbl) :=
        fun hx => (ids_pool4_not (ids_bucket5_sub hx)).2.1 h2
      have n6 : v.rid ∉ idsOf (remainingRows rm rb cols tbl) :=
        fun hx => (ids_pool5_not hx).2.1 h2
      simp only [assignedCats]
      rw [if_neg h1, if_pos h2, if_neg n3, if_neg n4, if_neg n5, if_neg n6]
      rfl
    · have hv2 : v ∈ pool2 rm rb tbl := mem_removeIds.mpr ⟨hv1, h2⟩
      by_cases h3 : v.rid ∈ idsOf (consistentRows rm rb cols tbl)
      · have n4 : v.rid ∉ idsOf (inconsistentRows rm rb cols tbl) :=
          fun hx => (ids_pool3_not (ids_bucket4_sub hx)).2.2 h3
        have n5 : v.rid ∉ idsOf (singleRows rm rb cols tbl) :=
          fun hx => (ids_pool4_not (ids_bucket5_sub hx)).2.2.1 h3
        have n6 : v.rid ∉ idsOf (remainingRows rm rb cols tbl) :=
          fun hx => (ids_pool5_not hx).2.2.1 h3
        simp only [assignedCats]
        rw [if_neg h1, if_neg h2, if_pos h3, if_neg n4, if_neg n5, if_neg n6]
        rfl
      · have hv3 : v ∈ pool3 rm rb cols tbl := mem_removeIds.mpr ⟨hv2, h3⟩
        by_cases h4 : v.rid ∈ idsOf (inconsistentRows rm rb cols tbl)
        · have n5 : v.rid ∉ idsOf (singleRows rm rb cols tbl) :=
            fun hx => (ids_pool4_not (ids_bucket5_sub hx)).2.2.2 h4
          have n6 : v.rid ∉ idsOf (remainingRows rm rb cols tbl) :=
            fun hx => (ids_pool5_not hx).2.2.2.1 h4
          simp only [assignedCats]
          rw [if_neg h1, if_neg h2, if_neg h3, if_pos h4, if_neg n5, if_neg n6]
          rfl
        · have hv4 : v ∈ pool4 rm rb cols tbl := mem_removeIds.mpr ⟨hv3, h4⟩
          by_cases h5 : v.rid ∈ idsOf (singleRows rm rb cols tbl)
          · have n6 : v.rid ∉ idsOf (remainingRows rm rb cols tbl) :=
              fun hx => (ids_pool5_not hx).2.2.2.2 h5
            simp only [assignedCats]
            rw [if_neg h1, if_neg h2, if_neg h3, if_neg h4, if_pos h5, if_neg n6]
            rfl
          · have hv5 : v ∈ pool5 rm rb cols tbl := mem_removeIds.mpr ⟨hv4, h5⟩
            have h6 : v.rid ∈ idsOf (remainingRows rm rb cols tbl) :=
              mem_idsOf.mpr ⟨v, hv5, rfl⟩
            simp only [assignedCats]
            rw [if_neg h1, if_neg h2, if_neg h3, if_neg h4, if_neg h5, if_pos h6]
            rfl

theorem mem_ite_singleton {c : Prop} [Decidable c] {x y : Cat} :
    (x ∈ if c then [y] else []) ↔ c ∧ x = y := by
  split
  · rename_i hc; simp [hc]
  · rename_i hc; simp [hc]

/-- `noMissing` is assigned to `pid` iff SOME row of `pid` satisfies the
row predicate (the code keys datatype 1 on matching rows, not on patients all
of whose rows match). -/
theorem noMissing_mem_assigned_iff (rm rb : Visit → Bool) (cols : List Nat)
    (tbl : List Visit) (pid : Nat) :
    Cat.noMissing ∈ assignedCats rm rb cols tbl pid ↔
      ∃ v ∈ tbl, v.rid = pid ∧ rm v = true := by
  simp only [assignedCats, List.mem_append, mem_ite_singleton]
  constructor
  · rintro (((((⟨h, -⟩ | ⟨-, h⟩) | ⟨-, h⟩) | ⟨-, h⟩) | ⟨-, h⟩) | ⟨-, h⟩)
    · obtain ⟨v, hv, rfl⟩ := mem_idsOf.mp h
      unfold noMissingRows at hv
      exact ⟨v, (List.mem_filter.mp hv).1, rfl, (List.mem_filter.mp hv).2⟩
    · exact Cat.noConfusion h
    · exact Cat.noConfusion h
    · exact Cat.noConfusion h
    · exact Cat.noConfusion h
    · exact Cat.noConfusion h
  · rintro ⟨v, hv, rfl, hrm⟩
    refine Or.inl (Or.inl (Or.inl (Or.inl (Or.inl ⟨?_, trivial⟩))))
    exact mem_idsOf.mpr ⟨v, List.mem_filter.mpr ⟨hv, hrm⟩, rfl⟩

end ClassifierLemmas

section PermLemmas

theorem bool_eq_of_iff {a b : Bool} (h : a = true ↔ b = true) : a = b := by
  cases a <;> cases b <;> simp_all

theorem perm_all {l1 l2 : List Visit} {q : Visit → Bool} (h : l1.Perm l2) :
    l1.all q = l2.all q := by
  apply bool_eq_of_iff
  rw [List.all_eq_true, List.all_eq_true]
  exact ⟨fun H x hx => H x (h.mem_iff.mpr hx), fun H x hx => H x (h.mem_iff.mp hx)⟩

theorem perm_filter_congr {l1 l2 : List Visit} {q1 q2 : Visit → Bool}
    (h : l1.Perm l2) (hq : ∀ x ∈ l1, q1 x = q2 x) :
    (l1.filter q1).Perm (l2.filter q2) := by
  rw [List.filter_congr hq]
  exact h.filter q2

theorem ids_mem_congr {l1 l2 : List Visit} (h : l1.Perm l2) (pid : Nat) :
    pid ∈ idsOf l1 ↔ pid ∈ idsOf l2 := (h.map _).mem_iff

theorem removeIds_congr {l1 l2 : List Visit} {ida idb : List Nat}
    (h : l1.Perm l2) (hids : ∀ n, n ∈ ida ↔ n ∈ idb) :
    (removeIds l1 ida).Perm (removeIds l2 idb) := by
  unfold removeIds
  apply perm_filter_congr h
  intro x _
  exact decide_eq_decide.mpr (not_congr (hids x.rid))

theorem isFullyConsistent_congr {p1 p2 : List Visit} (h : p1.Perm p2)
    (cols : List Nat) (v : Visit) :
    isFullyConsistent p1 cols v = isFullyConsistent p2 cols v := by
  unfold isFullyConsistent
  have hg : (groupOf p1 v.rid).Perm (groupOf p2 v.rid) := h.filter _
  have hf : (fun c => (groupOf p1 v.rid).all (fun w => (cellAt w c).isNone) ||
      (groupOf p1 v.rid).all (fun w => (cellAt w c).isSome)) =
      (fun c => (groupOf p2 v.rid).all (fun w => (cellAt w c).isNone) ||
      (groupOf p2 v.rid).all (fun w => (cellAt w c).isSome)) :=
    funext fun c => by rw [perm_all hg, perm_all hg]
  rw [hg.length_eq, hf]

theorem isInconsistent_congr {p1 p2 : List Visit} (h : p1.Perm p2)
    (cols : List Nat) (v : Visit) :
    isInconsistent p1 cols v = isInconsistent p2 cols v := by
  unfold isInconsistent
  have hg : (groupOf p1 v.rid).Perm (groupOf p2 v.rid) := h.filter _
  have hf : (fun c => !(groupOf p1 v.rid).all (fun w => (cellAt w c).isNone) &&
      !(groupOf p1 v.rid).all (fun w => (cellAt w c).isSome)) =
      (fun c => !(groupOf p2 v.rid).all (fun w => (cellAt w c).isNone) &&
      !(groupOf p2 v.rid).all (fun w => (cellAt w c).isSome)) :=
    funext fun c => by rw [perm_all hg, perm_all hg]
  rw [hg.length_eq, hf]

variable {tbl1 tbl2 : List Visit}

theorem noMissingRows_perm (rm : Visit → Bool) (h : tbl1.Perm tbl2) :
    (noMissingRows rm tbl1).Perm (noMissingRows rm tbl2) := h.filter rm

theorem pool1_perm (rm : Visit → Bool) (h : tbl1.Perm tbl2) :
    (pool1 rm tbl1).Perm (pool1 rm tbl2) :=
  removeIds_congr h (fun n => ids_mem_congr (noMissingRows_perm rm h) n)

theorem systematicRows_perm (rm rb : Visit → Bool) (h : tbl1.Perm tbl2) :
    (systematicRows rm rb tbl1).Perm (systematicRows rm rb tbl2) :=
  (pool1_perm rm h).filter rb

theorem pool2_perm (rm rb : Visit → Bool) (h : tbl1.Perm tbl2) :
    (pool2 rm rb tbl1).Perm (pool2 rm rb tbl2) :=
  removeIds_congr (pool1_perm rm h) (fun n => ids_mem_congr (systematicRows_perm rm rb h) n)

theorem consistentRows_perm (rm rb : Visit → Bool) (cols : List Nat) (h : tbl1.Perm tbl2) :
    (consistentRows rm rb cols tbl1).Perm (consistentRows rm rb cols tbl2) := by
  unfold consistentRows
  exact perm_filter_congr (pool2_perm rm rb h)
    (fun x _ => isFullyConsistent_congr (pool2_perm rm rb h) cols x)

theorem pool3_perm (rm rb : Visit → Bool) (cols : List Nat) (h : tbl1.Perm tbl2) :
    (pool3 rm rb cols tbl1).Perm (pool3 rm rb cols tbl2) :=
  removeIds_congr (pool2_perm rm rb h)
    (fun n => ids_mem_congr (consistentRows_perm rm rb cols h) n)

theorem inconsistentRows_perm (rm rb : Visit → Bool) (cols : List Nat) (h : tbl1.Perm tbl2) :
    (inconsistentRows rm rb cols tbl1).Perm (inconsistentRows rm rb cols tbl2) := by
  unfold inconsistentRows
  exact perm_filter_congr (pool3_perm rm rb cols h)
    (fun x _ => isInconsistent_congr (pool3_perm rm rb cols h) cols x)

theorem pool4_perm (rm rb : Visit → Bool) (cols : List Nat) (h : tbl1.Perm tbl2) :
    (pool4 rm rb cols tbl1).Perm (pool4 rm rb cols tbl2) :=
  removeIds_congr (pool3_perm rm rb cols h)
    (fun n => ids_mem_congr (inconsistentRows_perm rm rb cols h) n)

theorem singleRows_perm (rm rb : Visit → Bool) (cols : List Nat) (h : tbl1.Perm tbl2) :
    (singleRows rm rb cols tbl1).Perm (singleRows rm rb cols tbl2) := by
  unfold singleRows
  apply perm_filter_congr (pool4_perm rm rb cols h)
  intro x _
  apply decide_eq_decide.mpr
  unfold groupOf
  rw [((pool4_perm rm rb cols h).filter (fun v => decide (v.rid = x.rid))).length_eq]

theorem pool5_perm (rm rb : Visit → Bool) (cols : List Nat) (h : tbl1.Perm tbl2) :
    (pool5 rm rb cols tbl1).Perm (pool5 rm rb cols tbl2) :=
  removeIds_congr (pool4_perm rm rb cols h)
    (fun n => ids_mem_congr (singleRows_perm rm rb cols h) n)

theorem remainingRows_perm (rm rb : Visit → Bool) (cols : List Nat) (h : tbl1.Perm tbl2) :
    (remainingRows rm rb cols tbl1).Perm (remainingRows rm rb cols tbl2) :=
  pool5_perm rm rb cols h

/-- The full classification depends only on the multiset of rows. -/
theorem assignedCats_perm (rm rb : Visit → Bool) (cols : List Nat)
    (h : tbl1.Perm tbl2) (pid : Nat) :
    assignedCats rm rb cols tbl1 pid = assignedCats rm rb cols tbl2 pid := by
  unfold assignedCats
  rw [if_congr (ids_mem_congr (noMissingRows_perm rm h) pid) rfl rfl,
    if_congr (ids_mem_congr (systematicRows_perm rm rb h) pid) rfl rfl,
    if_congr (ids_mem_congr (consistentRows_perm rm rb cols h) pid) rfl rfl,
    if_congr (ids_mem_congr (inconsistentRows_perm rm rb cols h) pid) rfl rfl,
    if_congr (ids_mem_congr (singleRows_perm rm rb cols h) pid) rfl rfl,
    if_congr (ids_mem_congr (remainingRows_perm rm rb cols h) pid) rfl rfl]

end PermLemmas

/-! ### Date parsing (`datetime.strptime(s, '%Y-%m-%d')`) -/

/-- Numeric value of an all-digit string. -/
def digitsToNat (cs : List Char) : Nat :=
  cs.foldl (fun n c => 10 * n + (c.toNat - 48)) 0

def isLeapYear (y : Nat) : Bool :=
  (y % 4 = 0 && y % 100 ≠ 0) || y % 400 = 0

def daysInMonth (y m : Nat) : Nat :=
  if m = 2 then (if isLeapYear y then 29 else 28)
  else if m = 4 ∨ m = 6 ∨ m = 9 ∨ m = 11 then 30
  else 31

/-- `datetime.strptime(s, '%Y-%m-%d')`: exactly three dash-separated fields,
a 4-digit year (`datetime` rejects year 0), a 1-2-digit month in 1..12 and a
1-2-digit day valid for that month; anything else raises (`none`). -/
def parseDate (cs : List Char) : Option (Nat × Nat × Nat) :=
  match cs.splitOn '-' with
  | [ys, ms, ds] =>
    if ys.length = 4 ∧ ys.all isDigitChar = true ∧
        1 ≤ ms.length ∧ ms.length ≤ 2 ∧ ms.all isDigitChar = true ∧
        1 ≤ ds.length ∧ ds.length ≤ 2 ∧ ds.all isDigitChar = true then
      if 1 ≤ digitsToNat ys ∧ 1 ≤ digitsToNat ms ∧ digitsToNat ms ≤ 12 ∧
          1 ≤ digitsToNat ds ∧
          digitsToNat ds ≤ daysInMonth (digitsToNat ys) (digitsToNat ms) then
        some (digitsToNat ys, digitsToNat ms, digitsToNat ds)
      else none
    else none
  | _ => none

/-- `datetime` comparison of parsed dates: lexicographic on (year, month, day). -/
def dateLE (a b : Nat × Nat × Nat) : Bool :=
  decide (a.1 < b.1) ||
    (decide (a.1 = b.1) &&
      (decide (a.2.1 < b.2.1) || (decide (a.2.1 = b.2.1) && decide (a.2.2 ≤ b.2.2))))

def dateLT (a b : Nat × Nat × Nat) : Bool :=
  decide (a.1 < b.1) ||
    (decide (a.1 = b.1) &&
      (decide (a.2.1 < b.2.1) || (decide (a.2.1 = b.2.1) && decide (a.2.2 < b.2.2))))

theorem dateLE_eq_not_lt (a b : Nat × Nat × Nat) : dateLE a b = !dateLT b a := by
  rcases a with ⟨y1, m1, d1⟩
  rcases b with ⟨y2, m2, d2⟩
  apply bool_eq_of_iff
  simp only [dateLE, dateLT, Bool.or_eq_true, Bool.and_eq_true, decide_eq_true_eq,
    Bool.not_eq_true', Bool.or_eq_false_iff, Bool.and_eq_false_iff,
    decide_eq_false_iff_not]
  omega

theorem dateLE_refl (a : Nat × Nat × Nat) : dateLE a a = true := by
  rcases a with ⟨y, m, d⟩
  simp [dateLE]

/-! ### Cross-validator (`record_cells` in cross_validation.py) -/

/-- One tooth-site cell of a merged row: the column label and its value. -/
structure CVCell where
  label : List Char
  value : Option (List Char)
deriving DecidableEq

/-- One merged row: the raw CHART DATE text, the parsed
`Missing Teeth with Dates` list (date, tooth-number-string) and the
tooth-site cells. -/
structure CVRow where
  chartDate : List Char
  mtd : List ((Nat × Nat × Nat) × List Char)
  cells : List CVCell
deriving DecidableEq

/-- The four issue-label sets collected by `record_cells`. -/
structure IssueSets where
  andRecord : List (List Char)
  notRecord : List (List Char)
  otherIssue : List (List Char)
  integerError : List (List Char)
deriving DecidableEq

def emptyIssues : IssueSets := ⟨[], [], [], []⟩

/-- Substring containment (Python `needle in haystack`). -/
def containsSub (needle : List Char) : List Char → Bool
  | [] => needle.isEmpty
  | c :: rest => needle.isPrefixOf (c :: rest) || containsSub needle rest

/-- `col.startswith("Tooth") and (" P" in col or " B" in col)`. -/
def isToothCol (label : List Char) : Bool :=
  ("Tooth".toList).isPrefixOf label &&
    (containsSub (" P".toList) label || containsSub (" B".toList) label)

/-- Does `Tooth (\d\x7b1,2\x7d)` match starting at this position? -/
def toothAt : List Char → Option (List Char)
  | 'T' :: 'o' :: 'o' :: 't' :: 'h' :: ' ' :: d1 :: rest =>
    if isDigitChar d1 then
      match rest with
      | d2 :: _ => if isDigitChar d2 then some [d1, d2] else some [d1]
      | [] => some [d1]
    else none
  | _ => none

/-- `re.search(r'Tooth (\d\x7b1,2\x7d)', col)`: the first position where the
pattern matches, scanning left to right. -/
def searchToothNum : List Char → Option (List Char)
  | [] => none
  | c :: rest =>
    match toothAt (c :: rest) with
    | some t => some t
    | none => searchToothNum rest

/-- `pd.notna(cell_value) and not standard_pattern.match(str(cell_value))`. -/
def cellMalformed : Option (List Char) → Bool
  | some s => !pocketsMatches s
  | none => false

inductive IssueKind where
  | andRec
  | notRec
  | otherIss
  | intErr
deriving DecidableEq

/-- The issue (if any) that `record_cells` assigns to one tooth-site cell:
the malformed check runs first and short-circuits, then the confirmed-missing
check (`missing_date <= chart_date`), then the NaN checks. -/
def cellIssue (mtd : List ((Nat × Nat × Nat) × List Char)) (cd : Nat × Nat × Nat)
    (cell : CVCell) : Option IssueKind :=
  if isToothCol cell.label = true then
    match searchToothNum cell.label with
    | none => none
    | some toothNum =>
      if cellMalformed cell.value = true then some IssueKind.intErr
      else if mtd.any (fun e => decide (e.2 = toothNum) && dateLE e.1 cd) then
        some IssueKind.andRec
      else
        match cell.value with
        | none =>
          if mtd.any (fun e => decide (e.2 = toothNum)) then some IssueKind.otherIss
          else some IssueKind.notRec
        | some _ => none
  else none

/-- Add the cell's label to the set chosen by `cellIssue`. -/
def recordStep (mtd : List ((Nat × Nat × Nat) × List Char)) (cd : Nat × Nat × Nat)
    (acc : IssueSets) (cell : CVCell) : IssueSets :=
  match cellIssue mtd cd cell with
  | some IssueKind.intErr => { acc with integerError := acc.integerError ++ [cell.label] }
  | some IssueKind.andRec => { acc with andRecord := acc.andRecord ++ [cell.label] }
  | some IssueKind.otherIss => { acc with otherIssue := acc.otherIssue ++ [cell.label] }
  | some IssueKind.notRec => { acc with notRecord := acc.notRecord ++ [cell.label] }
  | none => acc

/-- `record_cells`: parses the row's CHART DATE (`strptime` raises on failure,
modelled by `none`), then collects the four issue sets over the row's cells. -/
def recordCells (row : CVRow) : Option IssueSets :=
  match parseDate row.chartDate with
  | none => none
  | some cd => some (row.cells.foldl (recordStep row.mtd cd) emptyIssues)

section CrossValidatorLemmas

variable {mtd : List ((Nat × Nat × Nat) × List Char)} {cd : Nat × Nat × Nat}

/-- Each issue set collected by the fold is the labels of the cells whose
`cellIssue` is the corresponding kind, appended to the accumulator. -/
theorem recordFold_char (mtd : List ((Nat × Nat × Nat) × List Char))
    (cd : Nat × Nat × Nat) (cells : List CVCell) :
    ∀ acc : IssueSets,
      cells.foldl (recordStep mtd cd) acc =
        ⟨acc.andRecord ++
            (cells.filter (fun c => cellIssue mtd cd c = some IssueKind.andRec)).map
              (fun c => c.label),
          acc.notRecord ++
            (cells.filter (fun c => cellIssue mtd cd c = some IssueKind.notRec)).map
              (fun c => c.label),
          acc.otherIssue ++
            (cells.filter (fun c => cellIssue mtd cd c = some IssueKind.otherIss)).map
              (fun c => c.label),
          acc.integerError ++
            (cells.filter (fun c => cellIssue mtd cd c = some IssueKind.intErr)).map
              (fun c => c.label)⟩ := by
  induction cells with
  | nil => intro acc; simp
  | cons c cs ih =>
    intro acc
    rw [List.foldl_cons, ih (recordStep mtd cd acc c)]
    rcases hci : cellIssue mtd cd c with _ | k
    · simp [recordStep, hci, List.filter_cons]
    · cases k <;> simp [recordStep, hci, List.filter_cons]

theorem mem_andRecord_iff (cells : List CVCell) (label : List Char) :
    label ∈ (cells.foldl (recordStep mtd cd) emptyIssues).andRecord ↔
      ∃ c, c ∈ cells ∧ cellIssue mtd cd c = some IssueKind.andRec ∧ c.label = label := by
  rw [recordFold_char mtd cd cells emptyIssues]
  simp [emptyIssues, List.mem_map, List.mem_filter, and_assoc]

theorem mem_notRecord_iff (cells : List CVCell) (label : List Char) :
    label ∈ (cells.foldl (recordStep mtd cd) emptyIssues).notRecord ↔
      ∃ c, c ∈ cells ∧ cellIssue mtd cd c = some IssueKind.notRec ∧ c.label = label := by
  rw [recordFold_char mtd cd cells emptyIssues]
  simp [emptyIssues, List.mem_map, List.mem_filter, and_assoc]

theorem mem_otherIssue_iff (cells : List CVCell) (label : List Char) :
    label ∈ (cells.foldl (recordStep mtd cd) emptyIssues).otherIssue ↔
      ∃ c, c ∈ cells ∧ cellIssue mtd cd c = some IssueKind.otherIss ∧ c.label = label := by
  rw [recordFold_char mtd cd cells emptyIssues]
  simp [emptyIssues, List.mem_map, List.mem_filter, and_assoc]

theorem mem_integerError_iff (cells : List CVCell) (label : List Char) :
    label ∈ (cells.foldl (recordStep mtd cd) emptyIssues).integerError ↔
      ∃ c, c ∈ cells ∧ cellIssue mtd cd c = some IssueKind.intErr ∧ c.label = label := by
  rw [recordFold_char mtd cd cells emptyIssues]
  simp [emptyIssues, List.mem_map, List.mem_filter, and_assoc]

/-- With distinct column labels, two cells sharing a label are the same cell. -/
theorem cell_eq_of_label_eq {cells : List CVCell}
    (hnd : (cells.map (fun c => c.label)).Nodup) {c1 c2 : CVCell}
    (h1 : c1 ∈ cells) (h2 : c2 ∈ cells) (hl : c1.label = c2.label) : c1 = c2 :=
  List.inj_on_of_nodup_map hnd h1 h2 hl

end CrossValidatorLemmas

/-! ### Missing-log parser
(`replace_tooth_codes`, `extract_missing_teeth_with_dates`) -/

/-- Does `(\d\x7b4\x7d-\d\x7b2\x7d-\d\x7b2\x7d) - Tooth (\d\x7b1,2\x7d)` match
at this position?  Returns ((date string, tooth string), rest after the match);
the tooth group is greedy. -/
def tryMatchEntry : List Char → Option ((List Char × List Char) × List Char)
  | y1 :: y2 :: y3 :: y4 :: h1 :: m1 :: m2 :: h2 :: d1 :: d2 :: rest =>
    if isDigitChar y1 && isDigitChar y2 && isDigitChar y3 && isDigitChar y4 &&
        decide (h1 = '-') && isDigitChar m1 && isDigitChar m2 && decide (h2 = '-') &&
        isDigitChar d1 && isDigitChar d2 then
      match rest with
      | ' ' :: '-' :: ' ' :: 'T' :: 'o' :: 'o' :: 't' :: 'h' :: ' ' :: a :: more =>
        if isDigitChar a then
          match more with
          | b :: more2 =>
            if isDigitChar b then
              some (([y1, y2, y3, y4, h1, m1, m2, h2, d1, d2], [a, b]), more2)
            else some (([y1, y2, y3, y4, h1, m1, m2, h2, d1, d2], [a]), b :: more2)
          | [] => some (([y1, y2, y3, y4, h1, m1, m2, h2, d1, d2], [a]), [])
        else none
      | _ => none
    else none
  | _ => none

/-- Left-to-right non-overlapping scan (the fuel only bounds recursion; one
unit is spent per position or match, so the input's length suffices). -/
def findEntriesAux : Nat → List Char → List (List Char × List Char)
  | 0, _ => []
  | _ + 1, [] => []
  | fuel + 1, c :: rest =>
    match tryMatchEntry (c :: rest) with
    | some (p, after) => p :: findEntriesAux fuel after
    | none => findEntriesAux fuel rest

/-- `re.findall(r'(\d\x7b4\x7d-\d\x7b2\x7d-\d\x7b2\x7d) - Tooth (\d\x7b1,2\x7d)', text)`. -/
def findEntries (cs : List Char) : List (List Char × List Char) :=
  findEntriesAux cs.length cs

/-- The list comprehension `[(strptime(date), tooth) for date, tooth in
matches]`: parsed left to right, raising (`none`) at the first date string
that is not a valid calendar date. -/
def parseEntries : List (List Char × List Char) →
    Option (List ((Nat × Nat × Nat) × List Char))
  | [] => some []
  | p :: rest =>
    match parseDate p.1, parseEntries rest with
    | some dd, some out => some ((dd, p.2) :: out)
    | _, _ => none

/-- `extract_missing_teeth_with_dates`: non-string input yields `[]`; for a
string every regex match is parsed with `strptime`, which raises (`none`)
when a matched date string is not a valid calendar date. -/
def extractMissingTeethWithDates (input : Option (List Char)) :
    Option (List ((Nat × Nat × Nat) × List Char)) :=
  match input with
  | none => some []
  | some cs => parseEntries (findEntries cs)

/-- The `\w` word-character class (ASCII members). -/
def isWordChar (c : Char) : Bool :=
  isDigitChar c || (97 ≤ c.toNat && c.toNat ≤ 122) ||
    (65 ≤ c.toNat && c.toNat ≤ 90) || c = '_'

/-- Does `\bT(\d\x7b1,2\x7d)\b` match at this position, given whether the
previous character is a word character?  Returns (digits, rest). -/
def toothCodeAt (prevWord : Bool) : List Char → Option (List Char × List Char)
  | 'T' :: a :: b :: rest =>
    if prevWord then none
    else if isDigitChar a then
      if isDigitChar b then
        match rest with
        | [] => some ([a, b], [])
        | r :: _ => if isWordChar r then none else some ([a, b], rest)
      else if isWordChar b then none
      else some ([a], b :: rest)
    else none
  | ['T', a] =>
    if prevWord then none
    else if isDigitChar a then some ([a], []) else none
  | _ => none

def replaceAux : Nat → Bool → List Char → List Char
  | 0, _, cs => cs
  | _ + 1, _, [] => []
  | fuel + 1, prevWord, c :: rest =>
    match toothCodeAt prevWord (c :: rest) with
    | some (ds, after) =>
      'T' :: 'o' :: 'o' :: 't' :: 'h' :: ' ' :: ds ++ replaceAux fuel true after
    | none => c :: replaceAux fuel (isWordChar c) rest

/-- `replace_tooth_codes`: `re.sub(r'\bT(\d\x7b1,2\x7d)\b', r'Tooth \1', text)`. -/
def replaceToothCodes (cs : List Char) : List Char :=
  replaceAux cs.length false cs

/-! ### Aggregator (`aggregate_issues` / `aggregate_column`) -/

inductive Side where
  | B
  | P
deriving DecidableEq

/-- First-occurrence dates recorded for one tooth (one per side). -/
structure SideDates where
  bDate : Option (List Char)
  pDate : Option (List Char)
deriving DecidableEq

def emptySides : SideDates := ⟨none, none⟩

/-- `str.split(', ')` (split on the exact two-character separator). -/
def splitCommaSpaceAux : Nat → List Char → List Char → List (List Char)
  | 0, cur, cs => [cur.reverse ++ cs]
  | _ + 1, cur, [] => [cur.reverse]
  | fuel + 1, cur, ',' :: ' ' :: rest => cur.reverse :: splitCommaSpaceAux fuel [] rest
  | fuel + 1, cur, c :: rest => splitCommaSpaceAux fuel (c :: cur) rest

def splitCommaSpace (cs : List Char) : List (List Char) :=
  splitCommaSpaceAux cs.length [] cs

/-- `re.match(r'Tooth (\d\x7b1,2\x7d) (P|B)', item.strip())`: anchored prefix
match on the stripped item, greedy 1-2-digit tooth group. -/
def parseToothSide (item : List Char) : Option (List Char × Side) :=
  match pyStrip item with
  | 'T' :: 'o' :: 'o' :: 't' :: 'h' :: ' ' :: d1 :: rest =>
    if isDigitChar d1 then
      match rest with
      | c2 :: rest2 =>
        if isDigitChar c2 then
          match rest2 with
          | ' ' :: 'P' :: _ => some ([d1, c2], Side.P)
          | ' ' :: 'B' :: _ => some ([d1, c2], Side.B)
          | _ => none
        else
          match c2, rest2 with
          | ' ', 'P' :: _ => some ([d1], Side.P)
          | ' ', 'B' :: _ => some ([d1], Side.B)
          | _, _ => none
      | [] => none
    else none
  | _ => none

/-- Record `date` for side `s` only if that side has no date yet
(`if side not in tooth_dict[tooth]`). -/
def setSide (sd : SideDates) (s : Side) (date : List Char) : SideDates :=
  match s with
  | Side.B =>
    match sd.bDate with
    | some _ => sd
    | none => { sd with bDate := some date }
  | Side.P =>
    match sd.pDate with
    | some _ => sd
    | none => { sd with pDate := some date }

/-- Insert into the insertion-ordered tooth dictionary. -/
def dictInsert : List (List Char × SideDates) → List Char → Side → List Char →
    List (List Char × SideDates)
  | [], t, s, date => [(t, setSide emptySides s date)]
  | (t', sd) :: rest, t, s, date =>
    if t' = t then (t', setSide sd s date) :: rest
    else (t', sd) :: dictInsert rest t s date

def insertEntry (dict : List (List Char × SideDates)) (date : List Char)
    (item : List Char) : List (List Char × SideDates) :=
  match parseToothSide item with
  | some (t, s) => dictInsert dict t s date
  | none => dict

/-- Process one aggregated row (CHART DATE string, comma-joined labels). -/
def processRow (dict : List (List Char × SideDates)) (row : List Char × List Char) :
    List (List Char × SideDates) :=
  (splitCommaSpace row.2).foldl (fun d it => insertEntry d row.1 it) dict

/-- The `tooth_dict` built by `aggregate_column` over the group's rows
(in group order; the `dropna()` is vacuous since these columns are always
strings). -/
def buildToothDict (rows : List (List Char × List Char)) :
    List (List Char × SideDates) :=
  rows.foldl processRow []

def dictFind : List (List Char × SideDates) → List Char → Option SideDates
  | [], _ => none
  | (t', sd) :: rest, t => if t' = t then some sd else dictFind rest t

/-- The date recorded for tooth `t`, side `s`. -/
def sideDate (dict : List (List Char × SideDates)) (t : List Char) (s : Side) :
    Option (List Char) :=
  match dictFind dict t with
  | none => none
  | some sd =>
    match s with
    | Side.B => sd.bDate
    | Side.P => sd.pDate

/-- Python string `<=`: lexicographic by code point. -/
def lexLE : List Char → List Char → Bool
  | [], _ => true
  | _ :: _, [] => false
  | c1 :: r1, c2 :: r2 =>
    if c1.toNat < c2.toNat then true
    else if c1 = c2 then lexLE r1 r2
    else false

/-- Key order used by `sorted(tooth_dict.items())` (keys are distinct, so the
values never take part in the comparison). -/
def keyLE (a b : List Char × SideDates) : Prop := lexLE a.1 b.1 = true

instance : DecidableRel keyLE := fun a b => by
  unfold keyLE
  infer_instance

/-- `sorted(tooth_dict.items())`: the ascending reordering of the items by
key (unique since the keys are distinct). -/
def sortItems (dict : List (List Char × SideDates)) : List (List Char × SideDates) :=
  dict.insertionSort keyLE

/-- The formatted line for one tooth (`Tooth X - B & P - d`, both-sides-differ,
or one-side forms). -/
def formatTooth (t : List Char) (sd : SideDates) : List Char :=
  match sd.bDate, sd.pDate with
  | some db, some dp =>
    if dp = db then "Tooth ".toList ++ t ++ " - B & P - ".toList ++ dp
    else "Tooth ".toList ++ t ++ " - (B - ".toList ++ db ++ ") / (P - ".toList ++ dp ++
      ")".toList
  | none, some dp => "Tooth ".toList ++ t ++ " - Only P - ".toList ++ dp
  | some db, none => "Tooth ".toList ++ t ++ " - Only B - ".toList ++ db
  | none, none => []

/-- `formatted_teeth`: one line per sorted tooth with at least one side. -/
def formatTeeth : List (List Char × SideDates) → List (List Char)
  | [] => []
  | (t, sd) :: rest =>
    match sd.bDate, sd.pDate with
    | none, none => formatTeeth rest
    | _, _ => formatTooth t sd :: formatTeeth rest

/-- `aggregate_column` (the formatted lines, before the final `<br>` join). -/
def aggregateColumn (rows : List (List Char × List Char)) : List (List Char) :=
  formatTeeth (sortItems (buildToothDict rows))

/-- A row of the group carries issue (tooth, side) in its label list. -/
def rowCarries (t : List Char) (s : Side) (row : List Char × List Char) : Bool :=
  (splitCommaSpace row.2).any (fun it => decide (parseToothSide it = some (t, s)))

section AggregatorLemmas

theorem sideDate_dictInsert_same (dict : List (List Char × SideDates))
    (t : List Char) (s : Side) (date : List Char) :
    sideDate (dictInsert dict t s date) t s =
      match sideDate dict t s with
      | some d => some d
      | none => some date := by
  induction dict with
  | nil =>
    cases s <;> simp [dictInsert, sideDate, dictFind, setSide, emptySides]
  | cons e rest ih =>
    rcases e with ⟨t', sd⟩
    by_cases ht : t' = t
    · subst ht
      rcases sd with ⟨b, p⟩
      cases s
      · cases b <;> simp [dictInsert, sideDate, dictFind, setSide]
      · cases p <;> simp [dictInsert, sideDate, dictFind, setSide]
    · simp only [dictInsert, if_neg ht]
      simp only [sideDate, dictFind, if_neg ht]
      exact ih

theorem sideDate_dictInsert_other (dict : List (List Char × SideDates))
    {t t' : List Char} {s s' : Side} (date : List Char)
    (h : ¬(t' = t ∧ s' = s)) :
    sideDate (dictInsert dict t' s' date) t s = sideDate dict t s := by
  induction dict with
  | nil =>
    by_cases ht : t' = t
    · subst ht
      have hs : s' ≠ s := fun hx => h ⟨rfl, hx⟩
      cases s <;> cases s' <;> simp_all [dictInsert, sideDate, dictFind, setSide, emptySides]
    · simp [dictInsert, sideDate, dictFind, ht]
  | cons e rest ih =>
    rcases e with ⟨t0, sd⟩
    by_cases ht0 : t0 = t'
    · subst ht0
      by_cases ht : t0 = t
      · subst ht
        have hs : s' ≠ s := fun hx => h ⟨rfl, hx⟩
        rcases sd with ⟨b, p⟩
        cases s <;> cases s' <;> simp_all [dictInsert, sideDate, dictFind, setSide] <;>
          split <;> rfl
      · simp [dictInsert, sideDate, dictFind, ht]
    · simp only [dictInsert, if_neg ht0]
      by_cases ht : t0 = t
      · subst ht
        simp [sideDate, dictFind]
      · simp only [sideDate, dictFind, if_neg ht]
        exact ih

theorem sideDate_insertEntry (dict : List (List Char × SideDates))
    (date item : List Char) (t : List Char) (s : Side) :
    sideDate (insertEntry dict date item) t s =
      if parseToothSide item = some (t, s) then
        match sideDate dict t s with
        | some d => some d
        | none => some date
      else sideDate dict t s := by
  unfold insertEntry
  rcases hp : parseToothSide item with _ | ⟨t', s'⟩
  · rw [if_neg (by simp)]
  · by_cases he : t' = t ∧ s' = s
    · obtain ⟨rfl, rfl⟩ := he
      rw [if_pos rfl]
      exact sideDate_dictInsert_same dict t' s' date
    · rw [if_neg (by intro hx; rw [Option.some.injEq, Prod.mk.injEq] at hx; exact he hx)]
      exact sideDate_dictInsert_other dict date he

theorem sideDate_foldItems (date : List Char) (items : List (List Char)) :
    ∀ (dict : List (List Char × SideDates)) (t : List Char) (s : Side),
      sideDate (items.foldl (fun d it => insertEntry d date it) dict) t s =
        match sideDate dict t s with
        | some d => some d
        | none =>
          if items.any (fun it => decide (parseToothSide it = some (t, s))) then some date
          else none := by
  induction items with
  | nil =>
    intro dict t s
    cases h : sideDate dict t s <;> simp [h]
  | cons it its ih =>
    intro dict t s
    rw [List.foldl_cons, ih]
    rw [sideDate_insertEntry]
    by_cases hit : parseToothSide it = some (t, s)
    · rw [if_pos hit]
      cases h : sideDate dict t s
      · simp [List.any_cons, hit]
      · simp
    · rw [if_neg hit]
      cases h : sideDate dict t s
      · simp [List.any_cons, hit]
      · simp

theorem sideDate_buildAux (rows : List (List Char × List Char)) :
    ∀ (dict : List (List Char × SideDates)) (t : List Char) (s : Side),
      sideDate (rows.foldl processRow dict) t s =
        match sideDate dict t s with
        | some d => some d
        | none => (rows.find? (rowCarries t s)).map (fun r => r.1) := by
  induction rows with
  | nil =>
    intro dict t s
    cases h : sideDate dict t s <;> simp [h]
  | cons r rest ih =>
    intro dict t s
    rw [List.foldl_cons, ih]
    show (match sideDate (processRow dict r) t s with
      | some d => some d
      | none =>
        (rest.find? (rowCarries t s)).map (fun x : List Char × List Char => x.1)) = _
    unfold processRow
    rw [sideDate_foldItems]
    by_cases hc : rowCarries t s r = true
    · rw [List.find?_cons_of_pos _ hc]
      unfold rowCarries at hc
      cases h : sideDate dict t s
      · simp [hc]
      · simp
    · rw [List.find?_cons_of_neg _ (by simpa using hc)]
      unfold rowCarries at hc
      cases h : sideDate dict t s
      · simp only [Bool.not_eq_true] at hc
        simp [hc]
      · simp

/-- The aggregator's per-side date is the CHART DATE of the FIRST group row
whose label list carries that tooth and side. -/
theorem sideDate_build (rows : List (List Char × List Char)) (t : List Char) (s : Side) :
    sideDate (buildToothDict rows) t s =
      (rows.find? (rowCarries t s)).map (fun r => r.1) := by
  unfold buildToothDict
  rw [sideDate_buildAux]
  rfl

theorem lexLE_refl (a : List Char) : lexLE a a = true := by
  induction a with
  | nil => rfl
  | cons c r ih => simp [lexLE, ih]

/-- In a date-ascending group, the first carrier's date is at most every
carrier's date. -/
theorem find_first_le {t : List Char} {s : Side} {rows : List (List Char × List Char)}
    (hs : rows.Pairwise (fun r1 r2 => lexLE r1.1 r2.1 = true)) :
    ∀ r ∈ rows, rowCarries t s r = true →
      ∃ r0, rows.find? (rowCarries t s) = some r0 ∧ lexLE r0.1 r.1 = true := by
  induction rows with
  | nil => intro r hr; simp at hr
  | cons a rest ih =>
    intro r hr hcar
    by_cases ha : rowCarries t s a = true
    · refine ⟨a, by rw [List.find?_cons_of_pos _ ha], ?_⟩
      rcases List.mem_cons.mp hr with rfl | hr'
      · exact lexLE_refl _
      · exact (List.pairwise_cons.mp hs).1 r hr'
    · rw [List.find?_cons_of_neg _ (by simpa using ha)]
      rcases List.mem_cons.mp hr with rfl | hr'
      · exact absurd hcar ha
      · exact ih (List.pairwise_cons.mp hs).2 r hr' hcar

theorem char_toNat_inj {c1 c2 : Char} (h : c1.toNat = c2.toNat) : c1 = c2 := by
  rw [← Char.ofNat_toNat c1, ← Char.ofNat_toNat c2, h]

theorem lexLE_total (a : List Char) : ∀ b, lexLE a b = true ∨ lexLE b a = true := by
  induction a with
  | nil => intro b; left; rfl
  | cons c1 r1 ih =>
    intro b
    cases b with
    | nil => right; rfl
    | cons c2 r2 =>
      by_cases h1 : c1.toNat < c2.toNat
      · left; simp [lexLE, h1]
      · by_cases h2 : c1 = c2
        · subst h2
          rcases ih r2 with h | h
          · left; simp [lexLE, h]
          · right; simp [lexLE, h]
        · have h3 : c2.toNat < c1.toNat := by
            rcases Nat.lt_trichotomy c1.toNat c2.toNat with hx | hx | hx
            · exact absurd hx h1
            · exact absurd (char_toNat_inj hx) h2
            · exact hx
          right; simp [lexLE, h3]

theorem lexLE_trans : ∀ (a b c : List Char),
    lexLE a b = true → lexLE b c = true → lexLE a c = true := by
  intro a
  induction a with
  | nil => intro b c _ _; rfl
  | cons x r1 ih =>
    intro b c hab hbc
    cases b with
    | nil => simp [lexLE] at hab
    | cons y r2 =>
      cases c with
      | nil => simp [lexLE] at hbc
      | cons z r3 =>
        simp only [lexLE] at hab hbc ⊢
        by_cases hxy : x.toNat < y.toNat
        · by_cases hyz : y.toNat < z.toNat
          · rw [if_pos (by omega)]
          · rw [if_neg hyz] at hbc
            by_cases hyz2 : y = z
            · subst hyz2; rw [if_pos hxy]
            · rw [if_neg hyz2] at hbc; exact absurd hbc (by simp)
        · rw [if_neg hxy] at hab
          by_cases hxy2 : x = y
          · subst hxy2
            rw [if_pos rfl] at hab
            by_cases hyz : x.toNat < z.toNat
            · rw [if_pos hyz]
            · rw [if_neg hyz] at hbc ⊢
              by_cases hyz2 : x = z
              · subst hyz2
                rw [if_pos rfl] at hbc ⊢
                exact ih r2 r3 hab hbc
              · rw [if_neg hyz2] at hbc; exact absurd hbc (by simp)
          · rw [if_neg hxy2] at hab; exact absurd hab (by simp)

instance : IsTotal (List Char × SideDates) keyLE :=
  ⟨fun a b => lexLE_total a.1 b.1⟩

instance : IsTrans (List Char × SideDates) keyLE :=
  ⟨fun a b c hab hbc => lexLE_trans a.1 b.1 c.1 hab hbc⟩

theorem sortItems_sorted (dict : List (List Char × SideDates)) :
    (sortItems dict).Pairwise keyLE :=
  List.sorted_insertionSort keyLE dict

theorem sortItems_perm (dict : List (List Char × SideDates)) :
    (sortItems dict).Perm dict :=
  List.perm_insertionSort keyLE dict

/-- On two-digit strings, the lexicographic string order agrees with the
numeric order. -/
theorem two_digit_lex_le {a b c d : Char}
    (ha : isDigitChar a = true) (hb : isDigitChar b = true)
    (hc : isDigitChar c = true) (hd : isDigitChar d = true)
    (h : lexLE [a, b] [c, d] = true) :
    digitsToNat [a, b] ≤ digitsToNat [c, d] := by
  simp only [isDigitChar, Bool.and_eq_true, decide_eq_true_eq] at ha hb hc hd
  simp only [digitsToNat, List.foldl_cons, List.foldl_nil]
  simp only [lexLE] at h
  by_cases h1 : a.toNat < c.toNat
  · omega
  · rw [if_neg h1] at h
    by_cases h2 : a = c
    · subst h2
      rw [if_pos rfl] at h
      by_cases h3 : b.toNat < d.toNat
      · omega
      · rw [if_neg h3] at h
        by_cases h4 : b = d
        · subst h4; omega
        · rw [if_neg h4] at h; exact absurd h (by simp)
    · rw [if_neg h2] at h; exact absurd h (by simp)

end AggregatorLemmas

section ParserLemmas

/-- A rendered log entry `YYYY-MM-DD - Tooth NN` followed by `tail`. -/
def mkEntry (y1 y2 y3 y4 m1 m2 d1 d2 a b : Char) (tail : List Char) : List Char :=
  y1 :: y2 :: y3 :: y4 :: '-' :: m1 :: m2 :: '-' :: d1 :: d2 ::
    ' ' :: '-' :: ' ' :: 'T' :: 'o' :: 'o' :: 't' :: 'h' :: ' ' :: a :: b :: tail

theorem tryMatchEntry_mk (y1 y2 y3 y4 m1 m2 d1 d2 a b : Char) (tail : List Char)
    (h1 : isDigitChar y1 = true) (h2 : isDigitChar y2 = true)
    (h3 : isDigitChar y3 = true) (h4 : isDigitChar y4 = true)
    (h5 : isDigitChar m1 = true) (h6 : isDigitChar m2 = true)
    (h7 : isDigitChar d1 = true) (h8 : isDigitChar d2 = true)
    (h9 : isDigitChar a = true) (h10 : isDigitChar b = true) :
    tryMatchEntry (mkEntry y1 y2 y3 y4 m1 m2 d1 d2 a b tail) =
      some (([y1, y2, y3, y4, '-', m1, m2, '-', d1, d2], [a, b]), tail) := by
  unfold mkEntry tryMatchEntry
  simp [h1, h2, h3, h4, h5, h6, h7, h8, h9, h10]

theorem tryMatchEntry_none_nondigit {c : Char} (cs : List Char)
    (h : isDigitChar c = false) : tryMatchEntry (c :: cs) = none := by
  unfold tryMatchEntry
  split
  · rename_i y1 y2 y3 y4 g1 m1 m2 g2 d1 d2 rest heq
    rw [List.cons.injEq] at heq
    obtain ⟨rfl, -⟩ := heq
    rw [h]
    rfl
  · rfl

theorem findAux_nil (fuel : Nat) : findEntriesAux fuel [] = [] := by
  cases fuel <;> rfl

theorem findAux_cons_match {fuel : Nat} {c : Char} {cs : List Char}
    {p : List Char × List Char} {after : List Char}
    (h : tryMatchEntry (c :: cs) = some (p, after)) :
    findEntriesAux (fuel + 1) (c :: cs) = p :: findEntriesAux fuel after := by
  simp only [findEntriesAux]
  rw [h]

theorem findAux_cons_skip {fuel : Nat} {c : Char} {cs : List Char}
    (h : tryMatchEntry (c :: cs) = none) :
    findEntriesAux (fuel + 1) (c :: cs) = findEntriesAux fuel cs := by
  simp only [findEntriesAux]
  rw [h]

/-- A match consumes at least the date, so the remainder is shorter than the
tail of the scanned position. -/
theorem tryMatch_after_len {c : Char} {cs : List Char} {p : List Char × List Char}
    {after : List Char} (h : tryMatchEntry (c :: cs) = some (p, after)) :
    after.length ≤ cs.length := by
  unfold tryMatchEntry at h
  split at h
  · rename_i y1 y2 y3 y4 g1 m1 m2 g2 d1 d2 rest heq
    rw [List.cons.injEq] at heq
    obtain ⟨-, heq⟩ := heq
    subst heq
    split at h
    · split at h
      · rename_i a more
        split at h
        · split at h
          · rename_i b more2
            split at h
            · rw [Option.some.injEq, Prod.mk.injEq] at h
              obtain ⟨-, rfl⟩ := h
              simp only [List.length_cons]
              omega
            · rw [Option.some.injEq, Prod.mk.injEq] at h
              obtain ⟨-, rfl⟩ := h
              simp only [List.length_cons]
              omega
          · rw [Option.some.injEq, Prod.mk.injEq] at h
            obtain ⟨-, rfl⟩ := h
            simp
        · exact absurd h (by simp)
      · exact absurd h (by simp)
    · exact absurd h (by simp)
  · exact absurd h (by simp)

/-- The fuel is irrelevant as long as it covers the input's length. -/
theorem findAux_fuel : ∀ (n : Nat) (cs : List Char) (fuel : Nat),
    cs.length ≤ n → cs.length ≤ fuel →
    findEntriesAux fuel cs = findEntriesAux cs.length cs := by
  intro n
  induction n with
  | zero =>
    intro cs fuel h1 _
    have hnil : cs = [] := List.length_eq_zero.mp (Nat.le_zero.mp h1)
    subst hnil
    rw [findAux_nil, findAux_nil]
  | succ n ih =>
    intro cs fuel h1 h2
    cases cs with
    | nil => rw [findAux_nil, findAux_nil]
    | cons c rest =>
      rw [List.length_cons] at h1 h2 ⊢
      cases fuel with
      | zero => omega
      | succ f =>
        have hr1 : rest.length ≤ n := by omega
        have hrf : rest.length ≤ f := by omega
        rcases hm : tryMatchEntry (c :: rest) with _ | ⟨p, after⟩
        · rw [findAux_cons_skip hm, findAux_cons_skip hm]
          exact ih rest f hr1 hrf
        · have hal := tryMatch_after_len hm
          rw [findAux_cons_match hm, findAux_cons_match hm]
          congr 1
          rw [ih after f (by omega) (by omega), ih after rest.length (by omega) (by omega)]

theorem findEntries_nil : findEntries [] = [] := rfl

theorem findEntries_cons_skip {c : Char} {cs : List Char}
    (h : tryMatchEntry (c :: cs) = none) :
    findEntries (c :: cs) = findEntries cs := by
  unfold findEntries
  rw [List.length_cons, findAux_cons_skip h]

theorem findEntries_cons_match {c : Char} {cs : List Char}
    {p : List Char × List Char} {after : List Char}
    (h : tryMatchEntry (c :: cs) = some (p, after)) :
    findEntries (c :: cs) = p :: findEntries after := by
  unfold findEntries
  rw [List.length_cons, findAux_cons_match h]
  congr 1
  exact findAux_fuel after.length after cs.length le_rfl (tryMatch_after_len h)

/-- Specification of `re.findall`'s scan: positions are examined left to
right; a position where the pattern does not match is skipped, a position
where it matches reports the captured pair and resumes after the match's end.
The reported list is therefore every (non-overlapping, leftmost) match in
order of appearance. -/
inductive FindallSpec : List Char → List (List Char × List Char) → Prop where
  | nil : FindallSpec [] []
  | skip {c : Char} {cs : List Char} {ps : List (List Char × List Char)} :
      tryMatchEntry (c :: cs) = none → FindallSpec cs ps → FindallSpec (c :: cs) ps
  | found {c : Char} {cs after : List Char} {p : List Char × List Char}
      {ps : List (List Char × List Char)} :
      tryMatchEntry (c :: cs) = some (p, after) → FindallSpec after ps →
      FindallSpec (c :: cs) (p :: ps)

theorem findallSpec_findEntries_aux : ∀ (n : Nat) (cs : List Char),
    cs.length ≤ n → FindallSpec cs (findEntries cs) := by
  intro n
  induction n with
  | zero =>
    intro cs h
    have hnil : cs = [] := List.length_eq_zero.mp (Nat.le_zero.mp h)
    subst hnil
    exact FindallSpec.nil
  | succ n ih =>
    intro cs h
    cases cs with
    | nil => exact FindallSpec.nil
    | cons c rest =>
      rw [List.length_cons] at h
      rcases hm : tryMatchEntry (c :: rest) with _ | ⟨p, after⟩
      · rw [findEntries_cons_skip hm]
        exact FindallSpec.skip hm (ih rest (by omega))
      · rw [findEntries_cons_match hm]
        have hal := tryMatch_after_len hm
        exact FindallSpec.found hm (ih after (by omega))

theorem findallSpec_unique {cs : List Char} {ps : List (List Char × List Char)}
    (h : FindallSpec cs ps) : ps = findEntries cs := by
  induction h with
  | nil => rfl
  | skip hm _ ih =>
    rw [findEntries_cons_skip hm]
    exact ih
  | found hm _ ih =>
    rw [findEntries_cons_match hm, ih]

/-- The shape `\d\x7b4\x7d-\d\x7b2\x7d-\d\x7b2\x7d` of a date substring. -/
def dateShape (d : List Char) : Bool :=
  match d with
  | [y1, y2, y3, y4, c1, m1, m2, c2, d1, d2] =>
    isDigitChar y1 && isDigitChar y2 && isDigitChar y3 && isDigitChar y4 &&
    decide (c1 = '-') && isDigitChar m1 && isDigitChar m2 && decide (c2 = '-') &&
    isDigitChar d1 && isDigitChar d2
  | _ => false

/-- A two-digit tooth group. -/
def toothShape (t : List Char) : Bool :=
  match t with
  | [a, b] => isDigitChar a && isDigitChar b
  | _ => false

/-- Narrative text interleaving log entries: a leading gap, then each entry
`D - Tooth T` followed by its gap. -/
def weave : List Char → List ((List Char × List Char) × List Char) → List Char
  | g0, [] => g0
  | g0, ((d, t), g) :: rest =>
    g0 ++ (d ++ ' ' :: '-' :: ' ' :: 'T' :: 'o' :: 'o' :: 't' :: 'h' :: ' ' ::
      (t ++ weave g rest))

/-- Scanning skips a digit-free gap entirely. -/
theorem findEntries_gap (g cs : List Char) (hg : ∀ x ∈ g, isDigitChar x = false) :
    findEntries (g ++ cs) = findEntries cs := by
  induction g with
  | nil => rfl
  | cons c g ih =>
    rw [List.cons_append,
      findEntries_cons_skip (tryMatchEntry_none_nondigit _ (hg c (List.mem_cons_self _ _)))]
    exact ih (fun x hx => hg x (List.mem_cons_of_mem _ hx))

/-- Scanning at a well-shaped entry reports it and resumes after it. -/
theorem findEntries_entry (d t rest : List Char) (hd : dateShape d = true)
    (ht : toothShape t = true) :
    findEntries (d ++ ' ' :: '-' :: ' ' :: 'T' :: 'o' :: 'o' :: 't' :: 'h' :: ' ' ::
      (t ++ rest)) = (d, t) :: findEntries rest := by
  rcases d with _ | ⟨y1, d⟩
  · simp [dateShape] at hd
  rcases d with _ | ⟨y2, d⟩
  · simp [dateShape] at hd
  rcases d with _ | ⟨y3, d⟩
  · simp [dateShape] at hd
  rcases d with _ | ⟨y4, d⟩
  · simp [dateShape] at hd
  rcases d with _ | ⟨y5, d⟩
  · simp [dateShape] at hd
  rcases d with _ | ⟨y6, d⟩
  · simp [dateShape] at hd
  rcases d with _ | ⟨y7, d⟩
  · simp [dateShape] at hd
  rcases d with _ | ⟨y8, d⟩
  · simp [dateShape] at hd
  rcases d with _ | ⟨y9, d⟩
  · simp [dateShape] at hd
  rcases d with _ | ⟨y10, d⟩
  · simp [dateShape] at hd
  rcases d with _ | ⟨y11, d⟩
  case cons => simp [dateShape] at hd
  rcases t with _ | ⟨a, t⟩
  · simp [toothShape] at ht
  rcases t with _ | ⟨b, t⟩
  · simp [toothShape] at ht
  rcases t with _ | ⟨c3, t⟩
  case cons => simp [toothShape] at ht
  simp only [dateShape, Bool.and_eq_true, decide_eq_true_eq] at hd
  obtain ⟨⟨⟨⟨⟨⟨⟨⟨⟨hy1, hy2⟩, hy3⟩, hy4⟩, hc1⟩, hy6⟩, hy7⟩, hc2⟩, hy9⟩, hy10⟩ := hd
  subst hc1 hc2
  simp only [toothShape, Bool.and_eq_true] at ht
  exact findEntries_cons_match
    (tryMatchEntry_mk y1 y2 y3 y4 y6 y7 y9 y10 a b rest hy1 hy2 hy3 hy4 hy6 hy7
      hy9 hy10 ht.1 ht.2)

/-- Scanning narrative text with embedded entries reports exactly the
entries, in order of appearance. -/
theorem findEntries_weave : ∀ (segs : List ((List Char × List Char) × List Char))
    (g0 : List Char), (∀ x ∈ g0, isDigitChar x = false) →
    (∀ seg ∈ segs, dateShape seg.1.1 = true ∧ toothShape seg.1.2 = true ∧
      (∀ x ∈ seg.2, isDigitChar x = false)) →
    findEntries (weave g0 segs) = segs.map (fun seg => seg.1) := by
  intro segs
  induction segs with
  | nil =>
    intro g0 hg0 _
    calc findEntries (weave g0 []) = findEntries (g0 ++ []) := by
          rw [List.append_nil]
          rfl
    _ = findEntries [] := findEntries_gap g0 [] hg0
    _ = [] := rfl
  | cons seg rest ih =>
    intro g0 hg0 hsegs
    rcases seg with ⟨⟨d, t⟩, g⟩
    obtain ⟨hd, ht, hgap⟩ := hsegs ⟨⟨d, t⟩, g⟩ (List.mem_cons_self _ _)
    show findEntries (g0 ++ (d ++ ' ' :: '-' :: ' ' :: 'T' :: 'o' :: 'o' :: 't' ::
      'h' :: ' ' :: (t ++ weave g rest))) = _
    rw [findEntries_gap g0 _ hg0, findEntries_entry d t (weave g rest) hd ht,
      List.map_cons]
    rw [ih g hgap (fun s hs => hsegs s (List.mem_cons_of_mem _ hs))]

/-- `extract_missing_teeth_with_dates` on a string is the strptime mapping of
the scan's matches. -/
theorem extract_eq_parse (cs : List Char) :
    extractMissingTeethWithDates (some cs) = parseEntries (findEntries cs) := rfl

theorem parseEntries_none : ∀ (l : List (List Char × List Char)),
    (∃ p ∈ l, parseDate p.1 = none) → parseEntries l = none := by
  intro l
  induction l with
  | nil =>
    rintro ⟨p, hp, -⟩
    simp at hp
  | cons q rest ih =>
    rintro ⟨p, hp, hnone⟩
    rcases List.mem_cons.mp hp with rfl | hp2
    · simp [parseEntries, hnone]
    · rcases hq : parseDate q.1 with _ | dq
      · simp [parseEntries, hq]
      · simp [parseEntries, hq, ih ⟨p, hp2, hnone⟩]

end ParserLemmas

/-! ### Sample data for witnesses and counterexamples -/

/-- A visit whose only checked cell is well-formed. -/
def vPerfect : Visit := ⟨1, "2020-01-01".toList, [some ("1 2 3".toList)]⟩

/-- A later visit of the same patient with an absent (NaN) cell. -/
def vFlawed : Visit := ⟨1, "2020-06-01".toList, [none]⟩

def tblMixed : List Visit := [vPerfect, vFlawed]

def tblSolo : List Visit := [vPerfect]

def cvCellMal : CVCell := ⟨"Tooth 18 B".toList, some ("abc".toList)⟩

/-- A visit whose malformed Tooth 18 B cell ALSO has a confirmed-missing log
entry dated before the chart date. -/
def cvRowC3 : CVRow :=
  ⟨"2021-05-01".toList, [((2021, 4, 1), "18".toList)], [cvCellMal]⟩

def setsC3 : IssueSets := ⟨[], [], [], ["Tooth 18 B".toList]⟩

def cvCell18 : CVCell := ⟨"Tooth 18 B".toList, some ("1 2 3".toList)⟩

def cvCell21 : CVCell := ⟨"Tooth 21 P".toList, none⟩

/-- A row with a log entry for tooth 18 dated exactly on the chart date and a
log entry for tooth 21 dated strictly after it. -/
def cvRowC4 : CVRow :=
  ⟨"2021-05-01".toList,
    [((2021, 5, 1), "18".toList), ((2021, 6, 1), "21".toList)],
    [cvCell18, cvCell21]⟩

def setsC4 : IssueSets := ⟨["Tooth 18 B".toList], [], ["Tooth 21 P".toList], []⟩

def cvRowBadDate : CVRow :=
  ⟨"not-a-date".toList, [], [⟨"Tooth 18 B".toList, none⟩]⟩

/-- Three chronologically ordered visits where Tooth 14 side B carries the
issue at visits 1 and 3 only. -/
def aggRows : List (List Char × List Char) :=
  [("2020-01-01".toList, "Tooth 14 B".toList),
   ("2020-03-01".toList, []),
   ("2020-06-01".toList, "Tooth 14 B".toList)]

/-! ### Claim theorems -/

/-- C1: in both snapshot pipelines the sequential shrinking-pool partition is
total and exclusive: every patient appearing in the table is assigned exactly
one of the six categories. -/
theorem classification_total_exclusive (cols : List Nat) (tbl : List Visit)
    (v : Visit) (hv : v ∈ tbl) :
    (assignedPockets cols tbl v.rid).length = 1 ∧
    (assignedRecessions cols tbl v.rid).length = 1 :=
  ⟨assignedCats_exactly_one _ _ cols tbl v hv,
   assignedCats_exactly_one _ _ cols tbl v hv⟩

theorem classification_total_exclusive_witness :
    (assignedPockets [0] tblMixed vPerfect.rid).length = 1 ∧
    (assignedRecessions [0] tblMixed vPerfect.rid).length = 1 :=
  classification_total_exclusive [0] tblMixed vPerfect (by decide)

/-- C2 counterexample: patient 1 has a visit (`vFlawed`) with an absent cell,
yet the pipeline assigns NoMissingData (because its OTHER visit matches). -/
theorem noMissingData_counterexample :
    Cat.noMissing ∈ assignedPockets [0] tblMixed 1 ∧
    vFlawed ∈ tblMixed ∧ vFlawed.rid = 1 ∧ cellAt vFlawed 0 = none ∧
    assignedPockets [0] tblMixed 1 = [Cat.noMissing] := by decide

/-- C2 amended: in both pipelines a patient is assigned NoMissingData iff at
least one of its visits has every checked cell well-formed. -/
theorem noMissingData_iff_some_visit (cols : List Nat) (tbl : List Visit)
    (pid : Nat) :
    (Cat.noMissing ∈ assignedPockets cols tbl pid ↔
      ∃ v ∈ tbl, v.rid = pid ∧ rowMatchesPattern pocketsMatches cols v = true) ∧
    (Cat.noMissing ∈ assignedRecessions cols tbl pid ↔
      ∃ v ∈ tbl, v.rid = pid ∧ rowMatchesPattern recessionsMatches cols v = true) :=
  ⟨noMissing_mem_assigned_iff _ _ cols tbl pid,
   noMissing_mem_assigned_iff _ _ cols tbl pid⟩

/-- C3: a non-null cell failing the three-integer pattern is labeled
IntegerFormatError and nothing else -- even when a confirmed-missing log entry
would otherwise match (the malformed check runs first and short-circuits). -/
theorem integer_format_error_first (row : CVRow) (sets : IssueSets)
    (cell : CVCell) (toothNum : List Char)
    (hrec : recordCells row = some sets)
    (hmem : cell ∈ row.cells)
    (hnd : (row.cells.map (fun c => c.label)).Nodup)
    (hcol : isToothCol cell.label = true)
    (htooth : searchToothNum cell.label = some toothNum)
    (hmal : cellMalformed cell.value = true) :
    cell.label ∈ sets.integerError ∧ cell.label ∉ sets.andRecord ∧
    cell.label ∉ sets.notRecord ∧ cell.label ∉ sets.otherIssue := by
  unfold recordCells at hrec
  rcases hpd : parseDate row.chartDate with _ | cd
  · rw [hpd] at hrec
    exact absurd hrec (by simp)
  rw [hpd, Option.some.injEq] at hrec
  subst hrec
  have hci : cellIssue row.mtd cd cell = some IssueKind.intErr := by
    simp [cellIssue, hcol, htooth, hmal]
  refine ⟨(mem_integerError_iff _ _).mpr ⟨cell, hmem, hci, rfl⟩, ?_, ?_, ?_⟩
  · intro hin
    obtain ⟨c', hm', hi', hl'⟩ := (mem_andRecord_iff _ _).mp hin
    rw [cell_eq_of_label_eq hnd hm' hmem hl'] at hi'
    rw [hci] at hi'
    simp at hi'
  · intro hin
    obtain ⟨c', hm', hi', hl'⟩ := (mem_notRecord_iff _ _).mp hin
    rw [cell_eq_of_label_eq hnd hm' hmem hl'] at hi'
    rw [hci] at hi'
    simp at hi'
  · intro hin
    obtain ⟨c', hm', hi', hl'⟩ := (mem_otherIssue_iff _ _).mp hin
    rw [cell_eq_of_label_eq hnd hm' hmem hl'] at hi'
    rw [hci] at hi'
    simp at hi'

theorem integer_format_error_first_witness :
    cvCellMal.label ∈ setsC3.integerError ∧ cvCellMal.label ∉ setsC3.andRecord ∧
    cvCellMal.label ∉ setsC3.notRecord ∧ cvCellMal.label ∉ setsC3.otherIssue :=
  integer_format_error_first cvRowC3 setsC3 cvCellMal ("18".toList)
    (by decide) (by decide) (by decide) (by decide) (by decide) (by decide)

/-- C4: the confirmed-missing test is inclusive on the date boundary: an
entry dated exactly on the chart date yields ConfirmedMissingAndRecorded,
while a null cell whose entries are all strictly later yields
MissingOtherIssue, never ConfirmedMissingAndRecorded. -/
theorem confirmed_missing_date_boundary (row : CVRow) (sets : IssueSets)
    (cell : CVCell) (toothNum : List Char) (cd : Nat × Nat × Nat)
    (hpd : parseDate row.chartDate = some cd)
    (hrec : recordCells row = some sets)
    (hmem : cell ∈ row.cells)
    (hnd : (row.cells.map (fun c => c.label)).Nodup)
    (hcol : isToothCol cell.label = true)
    (htooth : searchToothNum cell.label = some toothNum)
    (hmal : cellMalformed cell.value = false) :
    ((∃ e ∈ row.mtd, e.2 = toothNum ∧ e.1 = cd) → cell.label ∈ sets.andRecord) ∧
    (cell.value = none → (∃ e ∈ row.mtd, e.2 = toothNum) →
      (∀ e ∈ row.mtd, e.2 = toothNum → dateLT cd e.1 = true) →
      cell.label ∈ sets.otherIssue ∧ cell.label ∉ sets.andRecord) := by
  unfold recordCells at hrec
  rw [hpd, Option.some.injEq] at hrec
  subst hrec
  constructor
  · rintro ⟨e, he, het, hed⟩
    have hany : row.mtd.any (fun e => decide (e.2 = toothNum) && dateLE e.1 cd) = true := by
      rw [List.any_eq_true]
      refine ⟨e, he, ?_⟩
      rw [het, hed]
      simp [dateLE_refl]
    have hci : cellIssue row.mtd cd cell = some IssueKind.andRec := by
      simp [cellIssue, hcol, htooth, hmal, hany]
    exact (mem_andRecord_iff _ _).mpr ⟨cell, hmem, hci, rfl⟩
  · rintro hnull ⟨e0, he0, he0t⟩ hafter
    have hanyF : row.mtd.any (fun e => decide (e.2 = toothNum) && dateLE e.1 cd) = false := by
      rw [List.any_eq_false]
      intro e he
      by_cases het : e.2 = toothNum
      · have hlt := hafter e he het
        have : dateLE e.1 cd = false := by
          rw [dateLE_eq_not_lt, hlt]
          rfl
        simp [this]
      · simp [het]
    have hany2 : row.mtd.any (fun e => decide (e.2 = toothNum)) = true := by
      rw [List.any_eq_true]
      exact ⟨e0, he0, by simp [he0t]⟩
    have hci : cellIssue row.mtd cd cell = some IssueKind.otherIss := by
      simp [cellIssue, hcol, htooth, hnull, hanyF, hany2, cellMalformed]
    refine ⟨(mem_otherIssue_iff _ _).mpr ⟨cell, hmem, hci, rfl⟩, ?_⟩
    intro hin
    obtain ⟨c', hm', hi', hl'⟩ := (mem_andRecord_iff _ _).mp hin
    rw [cell_eq_of_label_eq hnd hm' hmem hl'] at hi'
    rw [hci] at hi'
    simp at hi'

theorem confirmed_missing_date_boundary_witness :
    cvCell18.label ∈ setsC4.andRecord ∧
    (cvCell21.label ∈ setsC4.otherIssue ∧ cvCell21.label ∉ setsC4.andRecord) :=
  ⟨(confirmed_missing_date_boundary cvRowC4 setsC4 cvCell18 ("18".toList)
      (2021, 5, 1) (by decide) (by decide) (by decide) (by decide) (by decide)
      (by decide) (by decide)).1 (by decide),
   (confirmed_missing_date_boundary cvRowC4 setsC4 cvCell21 ("21".toList)
      (2021, 5, 1) (by decide) (by decide) (by decide) (by decide) (by decide)
      (by decide) (by decide)).2 (by decide) (by decide) (by decide)⟩

/-- C5: `record_cells` on a row whose CHART DATE does not parse raises
(strptime ValueError, modelled as `none`) instead of returning four empty
label sets; only the styling function guards a null chart date. -/
theorem recordCells_unparseable_raises :
    parseDate cvRowBadDate.chartDate = none ∧
    recordCells cvRowBadDate = none ∧
    recordCells cvRowBadDate ≠ some emptyIssues ∧
    cvRowBadDate.cells ≠ [] := by decide

/-- C6 counterexample: the input contains exactly one substring matching the
entry regex, but the parser raises (`none`) on it -- `strptime` rejects month
13 -- instead of returning the one-element list the claim promises. -/
theorem extract_invalid_date_counterexample :
    extractMissingTeethWithDates (some ("2021-13-01 - Tooth 14".toList)) = none ∧
    findEntries ("2021-13-01 - Tooth 14".toList) =
      [("2021-13-01".toList, "14".toList)] := by decide

/-- C6 amended: non-string input yields the empty list without error; for
every string input the scan reports exactly the leftmost non-overlapping
regex matches in order of appearance (FindallSpec), and the parser returns
their (date, tooth) pairs in that order -- not sorted by date -- provided
every matched date is a valid calendar date, raising otherwise; in
particular entries embedded in arbitrary digit-free narrative are all
found in order, and the `TNN` normalization feeds the same parser. -/
theorem extract_order_of_appearance
    (g0 : List Char) (segs : List ((List Char × List Char) × List Char))
    (hg0 : ∀ x ∈ g0, isDigitChar x = false)
    (hsegs : ∀ seg ∈ segs, dateShape seg.1.1 = true ∧ toothShape seg.1.2 = true ∧
      (∀ x ∈ seg.2, isDigitChar x = false)) :
    extractMissingTeethWithDates none = some [] ∧
    (∀ cs : List Char, FindallSpec cs (findEntries cs)) ∧
    (∀ (cs : List Char) (ps : List (List Char × List Char)),
      FindallSpec cs ps → ps = findEntries cs) ∧
    (∀ (cs : List Char) (ps : List (List Char × List Char))
        (out : List ((Nat × Nat × Nat) × List Char)),
      FindallSpec cs ps → parseEntries ps = some out →
      extractMissingTeethWithDates (some cs) = some out) ∧
    (∀ (cs : List Char) (ps : List (List Char × List Char)),
      FindallSpec cs ps → (∃ p ∈ ps, parseDate p.1 = none) →
      extractMissingTeethWithDates (some cs) = none) ∧
    findEntries (weave g0 segs) = segs.map (fun seg => seg.1) ∧
    extractMissingTeethWithDates (some (replaceToothCodes
      ("2021-03-04 - T14, 2021-05-01 - T9".toList))) =
      some [((2021, 3, 4), "14".toList), ((2021, 5, 1), "9".toList)] := by
  refine ⟨rfl, ?_, ?_, ?_, ?_, ?_, by decide⟩
  · intro cs
    exact findallSpec_findEntries_aux cs.length cs le_rfl
  · intro cs ps h
    exact findallSpec_unique h
  · intro cs ps out h hmap
    rw [extract_eq_parse, ← findallSpec_unique h, hmap]
  · intro cs ps h hex
    rw [extract_eq_parse, ← findallSpec_unique h]
    exact parseEntries_none ps hex
  · exact findEntries_weave segs g0 hg0 hsegs

/-- Narrative text with two embedded entries whose dates appear in reverse
chronological order. -/
def narrC6g0 : List Char := "Patient notes: ".toList

def narrC6segs : List ((List Char × List Char) × List Char) :=
  [(("2021-05-01".toList, "14".toList), ", then ".toList),
   (("2021-03-04".toList, ('0' :: '9' :: [])), " noted.".toList)]

theorem extract_order_of_appearance_witness :
    extractMissingTeethWithDates none = some [] ∧
    findEntries (weave narrC6g0 narrC6segs) = narrC6segs.map (fun seg => seg.1) ∧
    extractMissingTeethWithDates (some (weave narrC6g0 narrC6segs)) =
      some [((2021, 5, 1), "14".toList), ((2021, 3, 4), ('0' :: '9' :: []))] ∧
    extractMissingTeethWithDates (some (replaceToothCodes
      ("2021-03-04 - T14, 2021-05-01 - T9".toList))) =
      some [((2021, 3, 4), "14".toList), ((2021, 5, 1), "9".toList)] := by
  have h := extract_order_of_appearance narrC6g0 narrC6segs (by decide) (by decide)
  exact ⟨h.1, h.2.2.2.2.2.1,
    h.2.2.2.1 (weave narrC6g0 narrC6segs) (findEntries (weave narrC6g0 narrC6segs))
      _ (h.2.1 (weave narrC6g0 narrC6segs)) (by decide),
    h.2.2.2.2.2.2⟩

/-- C7 counterexample: the recessions validator accepts three-space
separators (`\s+`), which the spec's one-or-two-space pattern rejects; the
pockets validator rejects them too. -/
theorem pattern_validator_counterexample :
    recessionsMatches ("9   10   11".toList) = true ∧
    specWellFormed ("9   10   11".toList) = false ∧
    pocketsMatches ("9   10   11".toList) = false := by decide

/-- C7 amended: the POCKETS validator returns WellFormed iff the trimmed text
matches the spec's one-or-two-whitespace pattern; the RECESSIONS validator
instead tolerates separators of one or MORE whitespace characters. -/
theorem pattern_validator_amended :
    (∀ cs : List Char, pocketsMatches cs = specWellFormed cs) ∧
    (∀ cs : List Char, recessionsMatches cs = specWellFormedAnyWS cs) ∧
    pocketsMatches ("9 10 11".toList) = true ∧
    pocketsMatches ("9  10  11".toList) = true ∧
    pocketsMatches ("9 10".toList) = false ∧
    pocketsMatches ("abc".toList) = false ∧
    pocketsMatches ("".toList) = false ∧
    recessionsMatches ("9 10 11".toList) = true ∧
    recessionsMatches ("".toList) = false :=
  ⟨pocketsMatches_eq_spec, recessionsMatches_eq_specAnyWS, by decide, by decide,
   by decide, by decide, by decide, by decide, by decide⟩

/-- C8: on a chronologically ascending group, each tooth+side is reported
with the date of the FIRST visit carrying the issue (later recurrences are
dropped), and the sorted output lists teeth in ascending numeric order. -/
theorem aggregator_first_occurrence (rows : List (List Char × List Char))
    (t : List Char) (s : Side)
    (hsorted : rows.Pairwise (fun r1 r2 => lexLE r1.1 r2.1 = true))
    (hkeys : ∀ e ∈ buildToothDict rows, e.1.length = 2 ∧ e.1.all isDigitChar = true) :
    sideDate (buildToothDict rows) t s =
      (rows.find? (rowCarries t s)).map (fun r => r.1) ∧
    (∀ r ∈ rows, rowCarries t s r = true →
      ∃ r0, rows.find? (rowCarries t s) = some r0 ∧
        sideDate (buildToothDict rows) t s = some r0.1 ∧ lexLE r0.1 r.1 = true) ∧
    ((sortItems (buildToothDict rows)).map (fun e => digitsToNat e.1)).Pairwise
      (· ≤ ·) := by
  refine ⟨sideDate_build rows t s, ?_, ?_⟩
  · intro r hr hcar
    obtain ⟨r0, hf, hle⟩ := find_first_le hsorted r hr hcar
    refine ⟨r0, hf, ?_, hle⟩
    rw [sideDate_build, hf]
    rfl
  · rw [List.pairwise_map]
    have hmem : ∀ e ∈ sortItems (buildToothDict rows), e ∈ buildToothDict rows :=
      fun e he => (sortItems_perm _).mem_iff.mp he
    apply List.Pairwise.imp_of_mem ?_ (sortItems_sorted (buildToothDict rows))
    intro a b ha hb hab
    obtain ⟨hal, had⟩ := hkeys a (hmem a ha)
    obtain ⟨hbl, hbd⟩ := hkeys b (hmem b hb)
    rcases haeq : a.1 with _ | ⟨x1, t1⟩
    · rw [haeq] at hal; simp at hal
    rcases t1 with _ | ⟨x2, t2⟩
    · rw [haeq] at hal; simp at hal
    rcases t2 with _ | ⟨x3, t3⟩
    · rcases hbeq : b.1 with _ | ⟨z1, s1⟩
      · rw [hbeq] at hbl; simp at hbl
      rcases s1 with _ | ⟨z2, s2⟩
      · rw [hbeq] at hbl; simp at hbl
      rcases s2 with _ | ⟨z3, s3⟩
      · rw [haeq] at had
        rw [hbeq] at hbd
        simp only [List.all_cons, List.all_nil, Bool.and_eq_true] at had hbd
        unfold keyLE at hab
        rw [haeq, hbeq] at hab
        exact two_digit_lex_le had.1 had.2.1 hbd.1 hbd.2.1 hab
      · rw [hbeq] at hbl; simp at hbl
    · rw [haeq] at hal; simp at hal

theorem aggregator_first_occurrence_witness :
    sideDate (buildToothDict aggRows) ("14".toList) Side.B =
      some ("2020-01-01".toList) ∧
    ((sortItems (buildToothDict aggRows)).map (fun e => digitsToNat e.1)).Pairwise
      (· ≤ ·) := by
  have h := aggregator_first_occurrence aggRows ("14".toList) Side.B
    (by decide) (by decide)
  refine ⟨?_, h.2.2⟩
  rw [h.1]
  decide

/-- C9: a patient id with zero rows is processed without any error: the
classifier assigns it no category at all and nothing aborts (the source
defines no DataIntegrityError). -/
theorem zero_visit_patient_silent :
    assignedPockets [0] tblSolo 99 = [] ∧
    assignedRecessions [0] tblSolo 99 = [] := by decide

/-- C10: the category assignment of both pipelines is invariant under
permutation of the table's rows (so of any patient's visit rows): it
depends only on the multiset of visits. -/
theorem classification_perm_invariant (cols : List Nat) (tbl1 tbl2 : List Visit)
    (pid : Nat) (h : tbl1.Perm tbl2) :
    assignedPockets cols tbl1 pid = assignedPockets cols tbl2 pid ∧
    assignedRecessions cols tbl1 pid = assignedRecessions cols tbl2 pid :=
  ⟨assignedCats_perm _ _ cols h pid, assignedCats_perm _ _ cols h pid⟩

theorem classification_perm_invariant_witness :
    assignedPockets [0] tblMixed 1 = assignedPockets [0] [vFlawed, vPerfect] 1 ∧
    assignedRecessions [0] tblMixed 1 =
      assignedRecessions [0] [vFlawed, vPerfect] 1 :=
  classification_perm_invariant [0] tblMixed [vFlawed, vPerfect] 1 (by decide)

end Dental
